import Mathlib

/-!
Shallow embedding of `src/p2p/gossipsub.rs` (the `GossipsubStream` subscription
multiplexer of this repository).

The Rust component multiplexes local subscribers over a single gossipsub
subscription per topic.  Its state is:
  * `streams      : HashMap<TopicHash, Vec<Sender<GossipsubMessage>>>`
  * `active_streams : HashMap<TopicHash, Arc<AtomicUsize>>`
  * `unsubscriptions : unbounded channel of TopicHash`
  * `queue_messages : HashMap<TopicHash, VecDeque<GossipsubMessage>>`
plus the wrapped gossipsub protocol engine.

We model HashMaps as association lists, `Arc<AtomicUsize>` as entries of a
counter store addressed by id, bounded mpsc channels as a buffer list plus a
closed flag in a channel store addressed by id, and the protocol engine as the
set of topics it considers subscribed together with a trace of the
subscribe/unsubscribe calls issued to it.  Execution is single threaded,
matching the cooperative scheduling of the component: every state mutation is
one of the Rust entry points (`subscribe`, `unsubscribe`, `Drop`, `poll_next`,
`poll`), applied atomically in sequence.

`IdentTopic::hash` of a topic name is the name itself, so topics are plain
strings.
-/

/-- `usize` arithmetic: `AtomicUsize::fetch_add` / `fetch_sub` wrap modulo `2 ^ 64`. -/
def usizeMod : Nat := 2 ^ 64

/-- Association-list lookup; models `HashMap` lookup / `entry` inspection. -/
def alookup {α β : Type} [DecidableEq α] (k : α) : List (α × β) → Option β
  | [] => none
  | (k', v) :: rest => if k' = k then some v else alookup k rest

/-- Remove every entry with the given key; models `HashMap::remove`. -/
def aerase {α β : Type} [DecidableEq α] (k : α) : List (α × β) → List (α × β)
  | [] => []
  | (k', v) :: rest => if k' = k then aerase k rest else (k', v) :: aerase k rest

/-- Update the value stored at a key in place; models mutation through an
occupied map entry or through a shared `Arc`. -/
def amodify {α β : Type} [DecidableEq α] (k : α) (f : β → β) : List (α × β) → List (α × β)
  | [] => []
  | (k', v) :: rest =>
      if k' = k then (k', f v) :: amodify k f rest else (k', v) :: amodify k f rest

/-- Insert an entry under a key that is not yet present; models
`HashMap::insert` / `VacantEntry::insert` for a fresh key. -/
def ainsert {α β : Type} (k : α) (v : β) (l : List (α × β)) : List (α × β) :=
  l ++ [(k, v)]

/-- A gossipsub application message; we keep the fields the multiplexer
inspects (`message.topic`) plus an abstract payload. -/
structure Msg where
  topic : String
  data : Nat
deriving DecidableEq, Repr

/-- One bounded consumer channel (`futures::channel::mpsc::channel(1)`):
a FIFO buffer plus a closed flag.  Closing is visible to both ends. -/
structure Chan where
  buf : List Msg
  closed : Bool
deriving DecidableEq, Repr

/-- `Sender::poll_ready`: with buffer size 1 and a single sender the channel
accepts up to two queued messages (the buffer slot plus the sender's
guaranteed slot); a closed channel is never ready. -/
def Chan.isReady (c : Chan) : Bool :=
  !c.closed && decide (c.buf.length < 2)

/-- The state a `SubscriptionStream` owns: the deferred-unsubscribe right
(`on_drop : Option<UnboundedSender<TopicHash>>`, modelled as a flag since all
clones reach the same queue), the topic (`Option<TopicHash>`), the id of the
receiving channel end, and the id of the shared subscriber counter. -/
structure Handle where
  onDrop : Bool
  topic : Option String
  chan : Nat
  counter : Nat
deriving DecidableEq, Repr

/-- A call issued to the wrapped gossipsub protocol engine. -/
inductive EngineCall
  | subscribe (t : String)
  | unsubscribe (t : String)
deriving DecidableEq, Repr

/-- The whole multiplexer state, together with the live handles, the engine's
subscription set and the trace of engine calls. -/
structure World where
  streams : List (String × List Nat)
  activeStreams : List (String × Nat)
  counters : List (Nat × Nat)
  chans : List (Nat × Chan)
  unsubQueue : List String
  queueMessages : List (String × List Msg)
  handles : List (Nat × Handle)
  engineSubscribed : List String
  engineTrace : List EngineCall
  nextId : Nat
deriving DecidableEq, Repr

def emptyWorld : World :=
  { streams := [], activeStreams := [], counters := [], chans := [], unsubQueue := []
    queueMessages := [], handles := [], engineSubscribed := [], engineTrace := [], nextId := 0 }

/-- `Gossipsub::subscribe`: returns `Ok(true)` on a new subscription,
`Ok(false)` if the engine is already subscribed.  The call is recorded in the
trace. -/
def engineSubscribeCall (w : World) (t : String) : World × Bool :=
  let w1 := { w with engineTrace := w.engineTrace ++ [EngineCall.subscribe t] }
  if t ∈ w1.engineSubscribed then (w1, false)
  else ({ w1 with engineSubscribed := t :: w1.engineSubscribed }, true)

/-- `Gossipsub::unsubscribe`: returns `Ok(true)` if a subscription existed. -/
def engineUnsubscribeCall (w : World) (t : String) : World × Bool :=
  let w1 := { w with engineTrace := w.engineTrace ++ [EngineCall.unsubscribe t] }
  if t ∈ w1.engineSubscribed then
    ({ w1 with engineSubscribed := w1.engineSubscribed.erase t }, true)
  else (w1, false)

/-- Errors of `GossipsubStream::subscribe` (`anyhow` errors in the source). -/
inductive SubErr
  | alreadySubscribed
  | engineSubscribeFailed
  | noActiveStream
deriving DecidableEq, Repr

/-- The `Entry::Vacant` arm of `GossipsubStream::subscribe`, parameterised by
the engine's answer (`Ok true` / `Ok false` / `Err`): on `Ok(true)` create a
counter at 1, a fresh bounded channel, store its sender as the sole registry
entry and return a live handle; on `Ok(false)` fail with `AlreadySubscribed`;
on `Err` propagate the engine error. -/
def subscribeVacantResult (w : World) (t : String) (ans : Except Unit Bool) :
    World × Except SubErr Nat :=
  match ans with
  | Except.ok true =>
      let cid := w.nextId
      let chid := w.nextId + 1
      let hid := w.nextId + 2
      ({ w with
          counters := ainsert cid 1 w.counters
          activeStreams := ainsert t cid w.activeStreams
          chans := ainsert chid { buf := [], closed := false } w.chans
          streams := ainsert t [chid] w.streams
          handles := ainsert hid
            { onDrop := true, topic := some t, chan := chid, counter := cid } w.handles
          nextId := w.nextId + 3 }, Except.ok hid)
  | Except.ok false => (w, Except.error SubErr.alreadySubscribed)
  | Except.error _ => (w, Except.error SubErr.engineSubscribeFailed)

/-- The `Entry::Occupied` arm of `GossipsubStream::subscribe`: create a fresh
bounded channel, look up the shared counter (failing with "No active stream"
if absent -- nothing is pushed in that case because the `?` fires before the
push), append the sender, increment the counter and return a handle sharing
the counter. -/
def subscribeOccupied (w : World) (t : String) : World × Except SubErr Nat :=
  match alookup t w.activeStreams with
  | none => (w, Except.error SubErr.noActiveStream)
  | some cid =>
      let chid := w.nextId
      let hid := w.nextId + 1
      ({ w with
          chans := ainsert chid { buf := [], closed := false } w.chans
          streams := amodify t (fun l => l ++ [chid]) w.streams
          counters := amodify cid (fun n => (n + 1) % usizeMod) w.counters
          handles := ainsert hid
            { onDrop := true, topic := some t, chan := chid, counter := cid } w.handles
          nextId := w.nextId + 2 }, Except.ok hid)

/-- `GossipsubStream::subscribe` (lines 144-190). -/
def subscribe (w : World) (t : String) : World × Except SubErr Nat :=
  match alookup t w.streams with
  | none =>
      let r := engineSubscribeCall w t
      subscribeVacantResult r.1 t (Except.ok r.2)
  | some _ => subscribeOccupied w t

/-- Error of `GossipsubStream::unsubscribe` on an untracked topic. -/
inductive UnsubErr
  | noSuchSubscription
deriving DecidableEq, Repr

/-- Close every channel in the list (`sender.close_channel()` on each). -/
def closeChans (chids : List Nat) (chans : List (Nat × Chan)) : List (Nat × Chan) :=
  chids.foldl (fun cs i => amodify i (fun c => { c with closed := true }) cs) chans

/-- `GossipsubStream::unsubscribe` (lines 196-207): remove the registry entry,
close all its senders, remove the counter entry, and forward the engine's
boolean answer.  Note that `queue_messages` is NOT touched here. -/
def unsubscribe (w : World) (t : String) : World × Except UnsubErr Bool :=
  match alookup t w.streams with
  | some chids =>
      let w1 := { w with
          streams := aerase t w.streams
          chans := closeChans chids w.chans }
      let w2 := { w1 with activeStreams := aerase t w1.activeStreams }
      let r := engineUnsubscribeCall w2 t
      (r.1, Except.ok r.2)
  | none => (w, Except.error UnsubErr.noSuchSubscription)

/-- `Drop for SubscriptionStream` (lines 68-82) plus the implicit drop of the
receiver field, which closes the channel.  If the shared counter reads 1 and
the deferred-unsubscribe right is still held, the topic is sent on the
unsubscription channel and the counter is left alone; otherwise the counter is
atomically decremented (wrapping `usize` subtraction). -/
def dropHandle (w : World) (hid : Nat) : World :=
  match alookup hid w.handles with
  | none => w
  | some h =>
      let w1 := { w with
          handles := aerase hid w.handles
          chans := amodify h.chan (fun c => { c with closed := true }) w.chans }
      let n := (alookup h.counter w1.counters).getD 0
      if n = 1 then
        if h.onDrop then
          match h.topic with
          | some t => { w1 with unsubQueue := w1.unsubQueue ++ [t] }
          | none => w1
        else w1
      else
        { w1 with counters := amodify h.counter (fun v => (v + (usizeMod - 1)) % usizeMod) w1.counters }

/-- Result of polling a `SubscriptionStream` once. -/
inductive RecvResult
  | item (m : Msg)
  | endOfStream
  | pending
deriving DecidableEq, Repr

/-- `Stream::poll_next for SubscriptionStream` (lines 106-118): forward the
inner receiver; on `Ready(None)` take (forfeit) the deferred-unsubscribe
right. -/
def recvOnce (w : World) (hid : Nat) : World × RecvResult :=
  match alookup hid w.handles with
  | none => (w, RecvResult.pending)
  | some h =>
      match alookup h.chan w.chans with
      | none => (w, RecvResult.pending)
      | some c =>
          match c.buf with
          | m :: _ =>
              ({ w with chans := amodify h.chan (fun c' => { c' with buf := c'.buf.tail }) w.chans },
                RecvResult.item m)
          | [] =>
              if c.closed then
                ({ w with handles := amodify hid (fun h' => { h' with onDrop := false }) w.handles },
                  RecvResult.endOfStream)
              else (w, RecvResult.pending)

/-- `FusedStream::is_terminated` (lines 121-125): the stream is terminated
once the deferred-unsubscribe right is gone. -/
def isTerminated (h : Handle) : Bool := !h.onDrop

/-- Processing of one deferred-unsubscribe notification inside `poll`
(lines 312-327): if the topic is still registered, close and remove all its
senders, tell the engine to unsubscribe (the source asserts the engine
answer), remove the counter entry and discard the topic's backlog. -/
def processNotification (w : World) (t : String) : World :=
  match alookup t w.streams with
  | some chids =>
      let w1 := { w with
          streams := aerase t w.streams
          chans := closeChans chids w.chans }
      let w2 := (engineUnsubscribeCall w1 t).1
      { w2 with
          activeStreams := aerase t w2.activeStreams
          queueMessages := aerase t w2.queueMessages }
  | none => w

/-- First loop of `poll` (lines 310-332): non-blockingly drain every pending
deferred-unsubscribe notification. -/
def drainNotifications (w : World) : World :=
  w.unsubQueue.foldl processNotification { w with unsubQueue := [] }

/-- `sender.is_closed()` for a channel id; ids absent from the store count as
closed (they never occur in reachable states). -/
def closedIn (chans : List (Nat × Chan)) (chid : Nat) : Bool :=
  match alookup chid chans with
  | some c => c.closed
  | none => true

/-- The sender iteration of the backlog drain (lines 359-379): walk the
senders; the first one found ready pops the front message of the backlog and
becomes "the message for this pass"; every ready sender is handed a clone of
it; senders found not ready are skipped. -/
def drainSenders (chans : List (Nat × Chan)) (current : Option Msg) (backlog : List Msg) :
    List Nat → List (Nat × Chan) × Option Msg × List Msg
  | [] => (chans, current, backlog)
  | chid :: rest =>
      match alookup chid chans with
      | none => drainSenders chans current backlog rest
      | some c =>
          if c.isReady then
            match current with
            | some m =>
                drainSenders (amodify chid (fun c' => { c' with buf := c'.buf ++ [m] }) chans)
                  (some m) backlog rest
            | none =>
                match backlog with
                | [] => (chans, none, [])
                | m :: tl =>
                    drainSenders (amodify chid (fun c' => { c' with buf := c'.buf ++ [m] }) chans)
                      (some m) tl rest
          else drainSenders chans current backlog rest

/-- The body of the `queue_messages.retain` closure for one topic
(lines 336-381).  Returns the world (without its `queueMessages` field being
consulted) and `some` updated backlog if the entry is kept, `none` if it is
dropped.  An empty backlog is dropped; a topic without a registry entry is
kept untouched; a topic whose pruned sender list is empty is torn down
(engine unsubscribe, registry and counter removal) and its backlog dropped;
otherwise at most one message is drained to the ready senders. -/
def drainTopicStep (w : World) (t : String) (list : List Msg) : World × Option (List Msg) :=
  if list.isEmpty then (w, none)
  else
    match alookup t w.streams with
    | none => (w, some list)
    | some senders0 =>
        let senders := senders0.filter (fun chid => !closedIn w.chans chid)
        if senders.isEmpty then
          let w1 := { w with streams := aerase t w.streams }
          let w2 := (engineUnsubscribeCall w1 t).1
          let w3 := { w2 with activeStreams := aerase t w2.activeStreams }
          (w3, none)
        else
          let w1 := { w with streams := amodify t (fun _ => senders) w.streams }
          let r := drainSenders w1.chans none list senders
          ({ w1 with chans := r.1 }, some r.2.2)

/-- One step of the fold realising `queue_messages.retain`: apply the
per-topic drain and append the entry to the kept list when it is retained. -/
def drainStep (acc : World × List (String × List Msg)) (p : String × List Msg) :
    World × List (String × List Msg) :=
  match drainTopicStep acc.1 p.1 p.2 with
  | (w', some l) => (w', acc.2 ++ [(p.1, l)])
  | (w', none) => (w', acc.2)

/-- One full backlog drain pass (lines 334-383): `queue_messages.retain`
applied over all entries.  Skipped entirely when the backlog map is empty,
as in the source. -/
def drainPass (w : World) : World :=
  if w.queueMessages.isEmpty then w
  else
    let r := w.queueMessages.foldl drainStep ({ w with queueMessages := [] }, [])
    { r.1 with queueMessages := r.2 }

/-- An event produced by one `gossipsub.poll` call that returned `Ready`. -/
inductive EngineEvent
  | message (m : Msg)
  | subscribed (peer : Nat) (t : String)
  | unsubscribed (peer : Nat) (t : String)
  | other (a : Nat)
deriving DecidableEq, Repr

/-- What one invocation of the multiplexer's `poll` returns. -/
inductive PollOut
  | pendingOut
  | readyEvent (e : EngineEvent)
deriving DecidableEq, Repr

/-- `entry(topic).or_default().push_back(message)` on the backlog map. -/
def apush (t : String) (m : Msg) (q : List (String × List Msg)) : List (String × List Msg) :=
  if (alookup t q).isSome then amodify t (fun l => l ++ [m]) q else q ++ [(t, [m])]

/-- The second loop of `poll` (lines 334-410): each iteration runs a drain
pass and then polls the engine once.  The engine's behaviour for this
invocation is an arbitrary script of `Ready` events, implicitly followed by
`Pending`.  A `Message` event is pushed onto its topic's backlog and the loop
restarts; any other event is returned to the caller; on engine `Pending` the
whole invocation returns `Pending`. -/
def pollLoop : List EngineEvent → World → World × PollOut
  | [], w => (drainPass w, PollOut.pendingOut)
  | e :: rest, w =>
      let w1 := drainPass w
      match e with
      | EngineEvent.message m =>
          pollLoop rest { w1 with queueMessages := apush m.topic m w1.queueMessages }
      | EngineEvent.subscribed p tp => (w1, PollOut.readyEvent (EngineEvent.subscribed p tp))
      | EngineEvent.unsubscribed p tp => (w1, PollOut.readyEvent (EngineEvent.unsubscribed p tp))
      | EngineEvent.other a => (w1, PollOut.readyEvent (EngineEvent.other a))

/-- One invocation of `NetworkBehaviour::poll for GossipsubStream`
(lines 302-411): drain the deferred-unsubscribe notifications, then run the
drain/engine loop. -/
def pollOnce (w : World) (events : List EngineEvent) : World × PollOut :=
  pollLoop events (drainNotifications w)

/-- The operations of the single-topic lifecycle (claim C2): local subscribe,
dropping a handle, and a poll invocation in which the engine makes no
progress. -/
inductive MOp
  | sub
  | dropH (i : Nat)
  | poll
deriving DecidableEq, Repr

def execOp (t : String) (w : World) : MOp → World
  | MOp.sub => (subscribe w t).1
  | MOp.dropH i => dropHandle w i
  | MOp.poll => (pollOnce w []).1

def execOps (t : String) : World → List MOp → World
  | w, [] => w
  | w, op :: rest => execOps t (execOp t w op) rest

/-- Every externally triggerable operation of the component, for the
whole-state invariants (claims C8 and C10). -/
inductive GOp
  | subOp (t : String)
  | unsubOp (t : String)
  | dropOp (i : Nat)
  | recvOp (i : Nat)
  | pollOp (events : List EngineEvent)

def execG (w : World) : GOp → World
  | GOp.subOp t => (subscribe w t).1
  | GOp.unsubOp t => (unsubscribe w t).1
  | GOp.dropOp i => dropHandle w i
  | GOp.recvOp i => (recvOnce w i).1
  | GOp.pollOp ev => (pollOnce w ev).1

/-- Handing a message to a channel if it is ready; the per-sender effect of
one drain pass. -/
def sendIfReady (m : Msg) (c : Chan) : Chan :=
  if c.isReady then { c with buf := c.buf ++ [m] } else c

/-- Whether the channel registered under an id is ready to send. -/
def readyIn (chans : List (Nat × Chan)) (sid : Nat) : Bool :=
  match alookup sid chans with
  | some c => c.isReady
  | none => false

def msgA : Msg := { topic := "t", data := 1 }
def msgB : Msg := { topic := "t", data := 2 }
def msgC : Msg := { topic := "t", data := 3 }

/-- Two producer channels: id 0 empty (ready), id 1 full (not ready). -/
def fanoutChans : List (Nat × Chan) :=
  [(0, { buf := [], closed := false }), (1, { buf := [msgA, msgB], closed := false })]

/-- A multiplexer with exactly one local subscriber to topic `"t"`:
counter id 0 (value 1), channel id 1, handle id 2. -/
def oneSubWorld : World := (subscribe emptyWorld "t").1

/-- A handle has forfeited its deferred-unsubscribe right (or is gone). -/
def Forfeited (w : World) (hid : Nat) : Prop :=
  ∀ h, alookup hid w.handles = some h → h.onDrop = false

/-- The topics registered in `streams` and in `active_streams` coincide. -/
def keysAligned (w : World) : Prop :=
  ∀ s : String, (alookup s w.streams).isSome ↔ (alookup s w.activeStreams).isSome

/-- One subscriber, then a poll in which the engine delivers three messages
for `"t"`: the consumer channel fills with the first two, the third stays in
the backlog. -/
def backlogWorld : World :=
  (pollOnce oneSubWorld
    [EngineEvent.message msgA, EngineEvent.message msgB, EngineEvent.message msgC]).1

/-- `backlogWorld` after an explicit `unsubscribe("t")`. -/
def backlogUnsubWorld : World := (unsubscribe backlogWorld "t").1

/-- Subscribe (handle 2), explicitly unsubscribe, then subscribe again
(handle 5): handle 2 is now stale but still holds its right. -/
def reSubWorld : World := (subscribe (unsubscribe oneSubWorld "t").1 "t").1

/-- `reSubWorld` after dropping the stale handle 2 (its counter reads 1, so a
deferred-unsubscribe notification for `"t"` is enqueued). -/
def staleDropWorld : World := dropHandle reSubWorld 2

/-- Is this operation a local subscribe? -/
def isSubOp : MOp → Bool
  | MOp.sub => true
  | _ => false

/-- A subscribe is admissible for the single-topic lifecycle analysis when no
deferred-unsubscribe notification is pending and the topic is either never
yet subscribed or still registered (this rules out exactly the
resubscribe-while-notification-pending race exhibited by the
counterexample). -/
def subAllowedB (t : String) (w : World) : Bool :=
  w.unsubQueue.isEmpty && (w.engineTrace.isEmpty || (alookup t w.streams).isSome)

/-- The run discipline for claim C2: along the execution, every `sub`
operation happens in an admissible state. -/
def RestrictedRun (t : String) : World → List MOp → Bool
  | _, [] => true
  | w, op :: rest =>
      ((!isSubOp op) || subAllowedB t w) && RestrictedRun t (execOp t w op) rest

/-- Lifecycle phase: nothing ever happened. -/
def PhasePre (w : World) : Prop := w = emptyWorld

/-- Lifecycle phase: the topic is registered with the engine, the counter
equals the number of live handles, all of which still hold their
deferred-unsubscribe right, and exactly one engine subscribe has been
issued. -/
def PhaseLive (t : String) (w : World) : Prop :=
  ∃ chids hs,
    w.streams = [(t, chids)] ∧
    w.activeStreams = [(t, 0)] ∧
    w.counters = [(0, hs.length)] ∧
    w.handles = hs ∧
    hs ≠ [] ∧
    (∀ p ∈ hs, p.2.onDrop = true ∧ p.2.topic = some t ∧ p.2.counter = 0) ∧
    (hs.map Prod.fst).Nodup ∧
    (∀ i ∈ hs.map Prod.fst, i < w.nextId) ∧
    w.unsubQueue = [] ∧ w.queueMessages = [] ∧
    w.engineTrace = [EngineCall.subscribe t] ∧
    w.engineSubscribed = [t]

/-- Lifecycle phase: the last handle was dropped and its deferred-unsubscribe
notification is waiting to be drained; the engine is still subscribed. -/
def PhasePending (t : String) (w : World) : Prop :=
  ∃ chids,
    w.streams = [(t, chids)] ∧
    w.activeStreams = [(t, 0)] ∧
    w.counters = [(0, 1)] ∧
    w.handles = [] ∧
    w.unsubQueue = [t] ∧ w.queueMessages = [] ∧
    w.engineTrace = [EngineCall.subscribe t] ∧
    w.engineSubscribed = [t]

/-- Lifecycle phase: torn down; exactly one engine subscribe followed by
exactly one engine unsubscribe were issued. -/
def PhaseDone (t : String) (w : World) : Prop :=
  w.streams = [] ∧ w.activeStreams = [] ∧ w.counters = [(0, 1)] ∧
  w.handles = [] ∧ w.unsubQueue = [] ∧ w.queueMessages = [] ∧
  w.engineTrace = [EngineCall.subscribe t, EngineCall.unsubscribe t] ∧
  w.engineSubscribed = []

/-- The lifecycle invariant for a single topic under the run discipline. -/
def LifecycleState (t : String) (w : World) : Prop :=
  PhasePre w ∨ PhaseLive t w ∨ PhasePending t w ∨ PhaseDone t w

/-! ### Association-list lemmas -/

@[simp]
theorem alookup_nil {α β : Type} [DecidableEq α] (k : α) :
    alookup k ([] : List (α × β)) = none := rfl

theorem alookup_cons {α β : Type} [DecidableEq α] (k k' : α) (v : β) (l : List (α × β)) :
    alookup k ((k', v) :: l) = if k' = k then some v else alookup k l := rfl

@[simp]
theorem alookup_amodify_self {α β : Type} [DecidableEq α] (k : α) (f : β → β)
    (l : List (α × β)) : alookup k (amodify k f l) = (alookup k l).map f := by
  induction l with
  | nil => simp [alookup, amodify]
  | cons p rest ih =>
      obtain ⟨k', v⟩ := p
      by_cases h : k' = k
      · subst h; simp [alookup, amodify, ih]
      · simp [alookup, amodify, h, ih]

theorem alookup_amodify_ne {α β : Type} [DecidableEq α] {k k' : α} (h : k ≠ k') (f : β → β)
    (l : List (α × β)) : alookup k' (amodify k f l) = alookup k' l := by
  induction l with
  | nil => simp [amodify]
  | cons p rest ih =>
      obtain ⟨k'', v⟩ := p
      by_cases h2 : k'' = k
      · subst h2
        have : ¬ k'' = k' := h
        simp [amodify, alookup, this, ih]
      · by_cases h3 : k'' = k'
        · subst h3; simp [amodify, alookup, h2, ih]
        · simp [amodify, alookup, h2, h3, ih]

@[simp]
theorem alookup_aerase_self {α β : Type} [DecidableEq α] (k : α) (l : List (α × β)) :
    alookup k (aerase k l) = none := by
  induction l with
  | nil => simp [aerase]
  | cons p rest ih =>
      obtain ⟨k', v⟩ := p
      by_cases h : k' = k
      · subst h; simp [aerase, ih]
      · simp [aerase, alookup, h, ih]

theorem alookup_aerase_ne {α β : Type} [DecidableEq α] {k k' : α} (h : k ≠ k')
    (l : List (α × β)) : alookup k' (aerase k l) = alookup k' l := by
  induction l with
  | nil => simp [aerase]
  | cons p rest ih =>
      obtain ⟨k'', v⟩ := p
      by_cases h2 : k'' = k
      · subst h2
        have : ¬ k'' = k' := h
        simp [aerase, alookup, this, ih]
      · by_cases h3 : k'' = k'
        · subst h3; simp [aerase, alookup, h2, ih]
        · simp [aerase, alookup, h2, h3, ih]

theorem alookup_append_of_none {α β : Type} [DecidableEq α] {k : α} {l₁ : List (α × β)}
    (h : alookup k l₁ = none) (l₂ : List (α × β)) :
    alookup k (l₁ ++ l₂) = alookup k l₂ := by
  induction l₁ with
  | nil => simp
  | cons p rest ih =>
      obtain ⟨k', v⟩ := p
      by_cases h2 : k' = k
      · subst h2; simp [alookup] at h
      · simp only [alookup, h2, if_false, List.cons_append] at h ⊢
        simp [alookup, h2]
        exact ih h

theorem alookup_append_of_some {α β : Type} [DecidableEq α] {k : α} {l₁ : List (α × β)} {v : β}
    (h : alookup k l₁ = some v) (l₂ : List (α × β)) :
    alookup k (l₁ ++ l₂) = some v := by
  induction l₁ with
  | nil => simp [alookup] at h
  | cons p rest ih =>
      obtain ⟨k', v'⟩ := p
      by_cases h2 : k' = k
      · subst h2
        simp only [alookup, if_pos rfl] at h ⊢
        exact h
      · simp only [alookup, h2, if_false] at h ⊢
        exact ih h

/-! ### Lemmas about the sender iteration of the backlog drain -/

theorem drainSenders_some_backlog (m : Msg) (sids : List Nat) (chans : List (Nat × Chan))
    (backlog : List Msg) :
    (drainSenders chans (some m) backlog sids).2.2 = backlog ∧
      (drainSenders chans (some m) backlog sids).2.1 = some m := by
  induction sids generalizing chans with
  | nil => simp [drainSenders]
  | cons sid rest ih =>
      simp only [drainSenders]
      cases h : alookup sid chans with
      | none => exact ih chans
      | some c =>
          by_cases hr : c.isReady
          · simp only [hr, if_true]
            exact ih _
          · simp only [hr, if_false]
            exact ih chans

theorem drainSenders_notMem (sids : List Nat) (chans : List (Nat × Chan)) (cur : Option Msg)
    (backlog : List Msg) (k : Nat) (hk : k ∉ sids) :
    alookup k (drainSenders chans cur backlog sids).1 = alookup k chans := by
  induction sids generalizing chans cur backlog with
  | nil => simp [drainSenders]
  | cons sid rest ih =>
      have hne : sid ≠ k := fun h => hk (h ▸ List.mem_cons_self sid rest)
      have hk' : k ∉ rest := fun h => hk (List.mem_cons_of_mem _ h)
      simp only [drainSenders]
      cases h : alookup sid chans with
      | none => exact ih chans cur backlog hk'
      | some c =>
          by_cases hr : c.isReady
          · simp only [hr, if_true]
            cases cur with
            | some m =>
                rw [ih _ _ _ hk', alookup_amodify_ne hne]
            | none =>
                cases backlog with
                | nil => rfl
                | cons m tl =>
                    rw [ih _ _ _ hk', alookup_amodify_ne hne]
          · simp only [hr, if_false]
            exact ih chans cur backlog hk'

theorem drainSenders_some_mem (m : Msg) (sids : List Nat) (chans : List (Nat × Chan))
    (backlog : List Msg) (hnd : sids.Nodup) (sid : Nat) (hmem : sid ∈ sids) :
    alookup sid (drainSenders chans (some m) backlog sids).1 =
      (alookup sid chans).map (sendIfReady m) := by
  induction sids generalizing chans with
  | nil => simp at hmem
  | cons s rest ih =>
      have hnd' : rest.Nodup := (List.nodup_cons.mp hnd).2
      have hs : s ∉ rest := (List.nodup_cons.mp hnd).1
      simp only [drainSenders]
      rcases List.mem_cons.mp hmem with heq | hmem'
      · subst heq
        cases h : alookup sid chans with
        | none =>
            rw [drainSenders_notMem rest chans (some m) backlog sid hs, h]
            rfl
        | some c =>
            by_cases hr : c.isReady
            · simp only [hr, if_true]
              rw [drainSenders_notMem rest _ (some m) backlog sid hs,
                alookup_amodify_self, h]
              simp [sendIfReady, hr]
            · simp only [hr, Bool.false_eq_true, if_false]
              rw [drainSenders_notMem rest chans (some m) backlog sid hs, h]
              simp [sendIfReady, hr]
      · have hne : s ≠ sid := fun h => hs (h ▸ hmem')
        cases h : alookup s chans with
        | none => exact ih chans hnd' hmem'
        | some c =>
            by_cases hr : c.isReady
            · simp only [hr, if_true]
              rw [ih _ hnd' hmem', alookup_amodify_ne hne]
            · simp only [hr, Bool.false_eq_true, if_false]
              exact ih chans hnd' hmem'

theorem drainSenders_none_spec (m : Msg) (tl : List Msg) (sids : List Nat)
    (chans : List (Nat × Chan)) (hnd : sids.Nodup) :
    ((drainSenders chans none (m :: tl) sids).2.2 =
        if sids.any (readyIn chans) then tl else m :: tl) ∧
    ((drainSenders chans none (m :: tl) sids).2.1 =
        if sids.any (readyIn chans) then some m else none) ∧
    (∀ sid ∈ sids, alookup sid (drainSenders chans none (m :: tl) sids).1 =
        (alookup sid chans).map (sendIfReady m)) := by
  induction sids generalizing chans with
  | nil => simp [drainSenders]
  | cons s rest ih =>
      have hnd' : rest.Nodup := (List.nodup_cons.mp hnd).2
      have hs : s ∉ rest := (List.nodup_cons.mp hnd).1
      simp only [drainSenders]
      cases h : alookup s chans with
      | none =>
          have hready : readyIn chans s = false := by simp [readyIn, h]
          obtain ⟨ih1, ih2, ih3⟩ := ih chans hnd'
          refine ⟨?_, ?_, ?_⟩
          · simpa [List.any_cons, hready] using ih1
          · simpa [List.any_cons, hready] using ih2
          · intro sid hmem
            rcases List.mem_cons.mp hmem with heq | hmem'
            · subst heq
              rw [drainSenders_notMem rest chans none (m :: tl) sid hs, h]
              rfl
            · exact ih3 sid hmem'
      | some c =>
          by_cases hr : c.isReady
          · have hready : readyIn chans s = true := by simp [readyIn, h, hr]
            simp only [hr, if_true]
            have hb := drainSenders_some_backlog m rest
              (amodify s (fun c' => { c' with buf := c'.buf ++ [m] }) chans) tl
            refine ⟨?_, ?_, ?_⟩
            · simp [List.any_cons, hready, hb.1]
            · simp [List.any_cons, hready, hb.2]
            · intro sid hmem
              rcases List.mem_cons.mp hmem with heq | hmem'
              · subst heq
                rw [drainSenders_notMem rest _ (some m) tl sid hs,
                  alookup_amodify_self, h]
                simp [sendIfReady, hr]
              · have hne : s ≠ sid := fun heq2 => hs (heq2 ▸ hmem')
                rw [drainSenders_some_mem m rest _ tl hnd' sid hmem',
                  alookup_amodify_ne hne]
          · have hready : readyIn chans s = false := by simp [readyIn, h, hr]
            simp only [hr, Bool.false_eq_true, if_false]
            obtain ⟨ih1, ih2, ih3⟩ := ih chans hnd'
            refine ⟨?_, ?_, ?_⟩
            · simpa [List.any_cons, hready] using ih1
            · simpa [List.any_cons, hready] using ih2
            · intro sid hmem
              rcases List.mem_cons.mp hmem with heq | hmem'
              · subst heq
                rw [drainSenders_notMem rest chans none (m :: tl) sid hs, h]
                simp [sendIfReady, hr]
              · exact ih3 sid hmem'


theorem drainSenders_backlog_cases (sids : List Nat) (chans : List (Nat × Chan))
    (cur : Option Msg) (backlog : List Msg) :
    (drainSenders chans cur backlog sids).2.2 = backlog ∨
      (drainSenders chans cur backlog sids).2.2 = backlog.tail := by
  induction sids generalizing chans cur backlog with
  | nil => left; simp [drainSenders]
  | cons s rest ih =>
      simp only [drainSenders]
      cases h : alookup s chans with
      | none => exact ih chans cur backlog
      | some c =>
          by_cases hr : c.isReady
          · simp only [hr, if_true]
            cases cur with
            | some m =>
                left
                exact (drainSenders_some_backlog m rest _ backlog).1
            | none =>
                cases backlog with
                | nil => left; rfl
                | cons m tl =>
                    right
                    exact (drainSenders_some_backlog m rest _ tl).1
          · simp only [hr, if_false]
            exact ih chans cur backlog

/-- Claim C1, counterexample.  The claim says at most one message per topic is
removed from that topic's backlog and delivered per `poll` invocation,
regardless of how many engine events the invocation processes.  In the code,
every engine `Message` event restarts the drain loop inside the same
invocation: with one ready subscriber and an engine script delivering two
messages for `"t"`, a single `poll` invocation removes both from the backlog
and delivers both to the subscriber's channel. -/
theorem poll_can_deliver_two_messages_per_invocation :
    (alookup 1 (pollOnce oneSubWorld
        [EngineEvent.message msgA, EngineEvent.message msgB]).1.chans).map Chan.buf
      = some [msgA, msgB]
    ∧ alookup "t" (pollOnce oneSubWorld
        [EngineEvent.message msgA, EngineEvent.message msgB]).1.queueMessages = some [] := by
  constructor <;> rfl

/-- Claim C1, amended: at most one message per topic is removed from the
topic's backlog per backlog-drain *pass* (one execution of the
`queue_messages.retain` closure): the per-topic step either keeps the backlog
unchanged, pops exactly the front message, or discards the whole entry
(empty-backlog lazy removal or topic teardown).  A single `poll` invocation
runs one such pass per engine `Message` event processed, plus one. -/
theorem drain_pass_removes_at_most_one_per_topic (w : World) (t : String) (l : List Msg) :
    (drainTopicStep w t l).2 = none ∨ (drainTopicStep w t l).2 = some l ∨
      (drainTopicStep w t l).2 = some l.tail := by
  unfold drainTopicStep
  by_cases he : l.isEmpty
  · simp [he]
  · simp only [he, Bool.false_eq_true, if_false]
    cases hs : alookup t w.streams with
    | none => simp
    | some senders0 =>
        by_cases hempty : (senders0.filter (fun chid => !closedIn w.chans chid)).isEmpty
        · simp [hempty]
        · simp only [hempty, Bool.false_eq_true, if_false]
          rcases drainSenders_backlog_cases
              (senders0.filter (fun chid => !closedIn w.chans chid)) w.chans none l with h | h
          · right; left
            simpa using congrArg some h
          · right; right
            simpa using congrArg some h

/-- Claim C3: in one backlog-drain pass over one topic, with backlog front
message `m`: the front message is popped exactly when some registered producer
is ready (it becomes "the message for this pass"); every producer found ready
during the iteration (including ones checked after the first) has a clone of
that same message appended to its channel; every producer found not ready has
its channel left untouched, and since the message is popped it is never
redelivered to it. -/
theorem backlog_drain_single_message_fanout (chans : List (Nat × Chan)) (sids : List Nat)
    (m : Msg) (tl : List Msg) (hnd : sids.Nodup) :
    ((drainSenders chans none (m :: tl) sids).2.2 =
        if sids.any (readyIn chans) then tl else m :: tl) ∧
    ((drainSenders chans none (m :: tl) sids).2.1 =
        if sids.any (readyIn chans) then some m else none) ∧
    (∀ sid ∈ sids, ∀ c, alookup sid chans = some c →
        alookup sid (drainSenders chans none (m :: tl) sids).1 =
          some (if c.isReady then { c with buf := c.buf ++ [m] } else c)) := by
  obtain ⟨h1, h2, h3⟩ := drainSenders_none_spec m tl sids chans hnd
  refine ⟨h1, h2, ?_⟩
  intro sid hmem c hc
  rw [h3 sid hmem, hc]
  rfl

/-- Witness for C3: producers 0 (empty channel, ready) and 1 (full channel,
not ready); the front message is popped, handed to producer 0 only. -/
theorem backlog_drain_single_message_fanout_witness :
    ([0, 1] : List Nat).Nodup ∧
    ((drainSenders fanoutChans none [msgC] [0, 1]).2.2 =
        if ([0, 1] : List Nat).any (readyIn fanoutChans) then [] else [msgC]) ∧
    ((drainSenders fanoutChans none [msgC] [0, 1]).2.1 =
        if ([0, 1] : List Nat).any (readyIn fanoutChans) then some msgC else none) ∧
    (∀ sid ∈ ([0, 1] : List Nat), ∀ c, alookup sid fanoutChans = some c →
        alookup sid (drainSenders fanoutChans none [msgC] [0, 1]).1 =
          some (if c.isReady then { c with buf := c.buf ++ [msgC] } else c)) :=
  ⟨by decide, backlog_drain_single_message_fanout fanoutChans [0, 1] msgC [] (by decide)⟩

/-- Claim C4: the branch behaviour of `subscribe`.  Vacant registry entry:
the engine is asked to subscribe; on "newly subscribed" a fresh counter at 1,
channel and handle are created and the handle returned; on "already
subscribed" the call fails with `AlreadySubscribed`; an engine error is
propagated as `EngineSubscribeFailed`.  Occupied registry entry: the engine is
not invoked (the trace is unchanged), a new producer end is appended to the
existing list, the shared counter is atomically incremented by 1, and a new
handle sharing that counter is returned. -/
theorem subscribe_branch_spec (w : World) (t : String) :
    (alookup t w.streams = none → t ∉ w.engineSubscribed →
        subscribe w t = ({ w with
            engineTrace := w.engineTrace ++ [EngineCall.subscribe t]
            engineSubscribed := t :: w.engineSubscribed
            counters := ainsert w.nextId 1 w.counters
            activeStreams := ainsert t w.nextId w.activeStreams
            chans := ainsert (w.nextId + 1) { buf := [], closed := false } w.chans
            streams := ainsert t [w.nextId + 1] w.streams
            handles := ainsert (w.nextId + 2)
              { onDrop := true, topic := some t, chan := w.nextId + 1, counter := w.nextId }
              w.handles
            nextId := w.nextId + 3 }, Except.ok (w.nextId + 2))) ∧
    (alookup t w.streams = none → t ∈ w.engineSubscribed →
        subscribe w t = ({ w with engineTrace := w.engineTrace ++ [EngineCall.subscribe t] },
          Except.error SubErr.alreadySubscribed)) ∧
    (subscribeVacantResult w t (Except.error ()) = (w, Except.error SubErr.engineSubscribeFailed)) ∧
    (∀ chids, alookup t w.streams = some chids → ∀ cid, alookup t w.activeStreams = some cid →
        subscribe w t = ({ w with
            chans := ainsert w.nextId { buf := [], closed := false } w.chans
            streams := amodify t (fun l => l ++ [w.nextId]) w.streams
            counters := amodify cid (fun n => (n + 1) % usizeMod) w.counters
            handles := ainsert (w.nextId + 1)
              { onDrop := true, topic := some t, chan := w.nextId, counter := cid } w.handles
            nextId := w.nextId + 2 }, Except.ok (w.nextId + 1))) := by
  refine ⟨?_, ?_, ?_, ?_⟩
  · intro h1 h2
    simp [subscribe, h1, engineSubscribeCall, h2, subscribeVacantResult]
  · intro h1 h2
    simp [subscribe, h1, engineSubscribeCall, h2, subscribeVacantResult]
  · rfl
  · intro chids h1 cid h2
    simp [subscribe, h1, subscribeOccupied, h2]

/-- Witness for C4, vacant branch on the empty world. -/
theorem subscribe_branch_spec_witness :
    alookup "t" emptyWorld.streams = none ∧
    subscribe emptyWorld "t" = ({ emptyWorld with
        engineTrace := emptyWorld.engineTrace ++ [EngineCall.subscribe "t"]
        engineSubscribed := "t" :: emptyWorld.engineSubscribed
        counters := ainsert emptyWorld.nextId 1 emptyWorld.counters
        activeStreams := ainsert "t" emptyWorld.nextId emptyWorld.activeStreams
        chans := ainsert (emptyWorld.nextId + 1) { buf := [], closed := false } emptyWorld.chans
        streams := ainsert "t" [emptyWorld.nextId + 1] emptyWorld.streams
        handles := ainsert (emptyWorld.nextId + 2)
          { onDrop := true, topic := some "t", chan := emptyWorld.nextId + 1,
            counter := emptyWorld.nextId } emptyWorld.handles
        nextId := emptyWorld.nextId + 3 }, Except.ok (emptyWorld.nextId + 2)) :=
  ⟨rfl, (subscribe_branch_spec emptyWorld "t").1 rfl (by decide)⟩

/-- Claim C5: destroying a `SubscriptionStream` that still holds its
deferred-unsubscribe right: if the shared counter reads 1 the topic is
enqueued on the deferred-unsubscribe channel and the counter is left
undecremented; for any other reading the counter is atomically decremented by
one (wrapping `usize` subtraction) and nothing is enqueued. -/
theorem drop_handle_spec (w : World) (hid : Nat) (h : Handle) (tp : String)
    (hh : alookup hid w.handles = some h) (hod : h.onDrop = true) (ht : h.topic = some tp) :
    ((alookup h.counter w.counters).getD 0 = 1 →
        dropHandle w hid = { w with
            handles := aerase hid w.handles
            chans := amodify h.chan (fun c => { c with closed := true }) w.chans
            unsubQueue := w.unsubQueue ++ [tp] }) ∧
    (∀ n, (alookup h.counter w.counters).getD 0 = n → n ≠ 1 →
        (dropHandle w hid = { w with
            handles := aerase hid w.handles
            chans := amodify h.chan (fun c => { c with closed := true }) w.chans
            counters := amodify h.counter (fun v => (v + (usizeMod - 1)) % usizeMod) w.counters }) ∧
        (2 ≤ n → n < usizeMod →
            alookup h.counter (dropHandle w hid).counters = some (n - 1))) := by
  have hM : usizeMod = 18446744073709551616 := by norm_num [usizeMod]
  constructor
  · intro hc
    simp [dropHandle, hh, hc, hod, ht]
  · intro n hc hne
    have heq : dropHandle w hid = { w with
        handles := aerase hid w.handles
        chans := amodify h.chan (fun c => { c with closed := true }) w.chans
        counters := amodify h.counter (fun v => (v + (usizeMod - 1)) % usizeMod) w.counters } := by
      simp [dropHandle, hh, hc, hne]
    refine ⟨heq, ?_⟩
    intro h2 hlt
    have hsome : alookup h.counter w.counters = some n := by
      cases hx : alookup h.counter w.counters with
      | none => simp [hx] at hc; omega
      | some v => simp [hx] at hc; rw [hc]
    have harith : (n + (usizeMod - 1)) % usizeMod = n - 1 := by
      rw [hM] at hlt ⊢
      omega
    rw [heq]
    simp only [alookup_amodify_self, hsome]
    simp [harith]

/-- Witness for C5, counter-reads-1 branch, on the one-subscriber world. -/
theorem drop_handle_spec_witness :
    alookup 2 oneSubWorld.handles =
      some { onDrop := true, topic := some "t", chan := 1, counter := 0 } ∧
    (alookup (0 : Nat) oneSubWorld.counters).getD 0 = 1 ∧
    dropHandle oneSubWorld 2 = { oneSubWorld with
        handles := aerase 2 oneSubWorld.handles
        chans := amodify 1 (fun c => { c with closed := true }) oneSubWorld.chans
        unsubQueue := oneSubWorld.unsubQueue ++ ["t"] } :=
  ⟨by decide, by decide,
    (drop_handle_spec oneSubWorld 2 { onDrop := true, topic := some "t", chan := 1, counter := 0 }
      "t" (by decide) rfl rfl).1 (by decide)⟩

/-- Look-up description of closing a list of channels. -/
theorem alookup_closeChans (chids : List Nat) (chans : List (Nat × Chan)) (k : Nat) :
    alookup k (closeChans chids chans) =
      if k ∈ chids then (alookup k chans).map (fun c => { c with closed := true })
      else alookup k chans := by
  induction chids generalizing chans with
  | nil => simp [closeChans]
  | cons i rest ih =>
      have hstep : closeChans (i :: rest) chans =
          closeChans rest (amodify i (fun c => { c with closed := true }) chans) := rfl
      rw [hstep, ih]
      by_cases hk : k = i
      · subst hk
        rw [alookup_amodify_self]
        by_cases hm : k ∈ rest
        · simp only [hm, if_true, List.mem_cons, true_or, if_pos]
          cases alookup k chans <;> simp
        · simp [hm]
      · rw [alookup_amodify_ne (fun hq => hk hq.symm)]
        simp [List.mem_cons, hk]

/-- Claim C7: explicit `unsubscribe`.  With a registry entry: every producer
end for the topic is removed from the registry and closed, the counter entry
is removed, the engine is asked to unsubscribe and its boolean answer is
returned.  Without a registry entry: the call fails with `NoSuchSubscription`
and the engine is not invoked (the whole state, trace included, is
unchanged). -/
theorem unsubscribe_spec (w : World) (t : String) :
    (∀ chids, alookup t w.streams = some chids → t ∈ w.engineSubscribed →
        unsubscribe w t = ({ w with
            streams := aerase t w.streams
            chans := closeChans chids w.chans
            activeStreams := aerase t w.activeStreams
            engineTrace := w.engineTrace ++ [EngineCall.unsubscribe t]
            engineSubscribed := w.engineSubscribed.erase t }, Except.ok true)) ∧
    (∀ chids, alookup t w.streams = some chids → t ∉ w.engineSubscribed →
        unsubscribe w t = ({ w with
            streams := aerase t w.streams
            chans := closeChans chids w.chans
            activeStreams := aerase t w.activeStreams
            engineTrace := w.engineTrace ++ [EngineCall.unsubscribe t] }, Except.ok false)) ∧
    (∀ chids, alookup t w.streams = some chids → ∀ chid ∈ chids, ∀ c,
        alookup chid w.chans = some c →
        alookup chid (unsubscribe w t).1.chans = some { c with closed := true }) ∧
    (alookup t w.streams = none →
        unsubscribe w t = (w, Except.error UnsubErr.noSuchSubscription)) := by
  refine ⟨?_, ?_, ?_, ?_⟩
  · intro chids h1 h2
    simp [unsubscribe, h1, engineUnsubscribeCall, h2]
  · intro chids h1 h2
    simp [unsubscribe, h1, engineUnsubscribeCall, h2]
  · intro chids h1 chid hmem c hc
    have : (unsubscribe w t).1.chans = closeChans chids w.chans := by
      simp [unsubscribe, h1, engineUnsubscribeCall]
      by_cases h2 : t ∈ w.engineSubscribed <;> simp [h2]
    rw [this, alookup_closeChans]
    simp [hmem, hc]
  · intro h1
    simp [unsubscribe, h1]

/-- Witness for C7 on the one-subscriber world. -/
theorem unsubscribe_spec_witness :
    alookup "t" oneSubWorld.streams = some [1] ∧ "t" ∈ oneSubWorld.engineSubscribed ∧
    unsubscribe oneSubWorld "t" = ({ oneSubWorld with
        streams := aerase "t" oneSubWorld.streams
        chans := closeChans [1] oneSubWorld.chans
        activeStreams := aerase "t" oneSubWorld.activeStreams
        engineTrace := oneSubWorld.engineTrace ++ [EngineCall.unsubscribe "t"]
        engineSubscribed := oneSubWorld.engineSubscribed.erase "t" }, Except.ok true) :=
  ⟨by decide, by decide,
    (unsubscribe_spec oneSubWorld "t").1 [1] (by decide) (by decide)⟩

/-- Claim C6, counterexample.  The claim says every backlog message leaves
either by delivery or by topic teardown -- including teardown by explicit
unsubscribe -- and that no backlog entry persists after its topic is torn
down.  In the code `unsubscribe` does not touch `queue_messages`: after an
explicit unsubscribe of `"t"` with message `msgC` still queued, the registry
entry is gone and the engine was told to unsubscribe, yet the backlog entry
for `"t"` still holds `msgC`, and it survives a subsequent poll unchanged
(the drain skips topics without a registry entry). -/
theorem backlog_survives_explicit_unsubscribe :
    alookup "t" backlogUnsubWorld.streams = none ∧
    backlogUnsubWorld.engineTrace =
      [EngineCall.subscribe "t", EngineCall.unsubscribe "t"] ∧
    alookup "t" backlogUnsubWorld.queueMessages = some [msgC] ∧
    alookup "t" (pollOnce backlogUnsubWorld []).1.queueMessages = some [msgC] :=
  ⟨rfl, rfl, rfl, rfl⟩

/-- Claim C6, amended: a backlog message leaves by being popped for a ready
consumer, or wholesale when the topic is torn down by the
deferred-unsubscribe drain or by the empty-sender pruning of the backlog
drain; explicit `unsubscribe` leaves the topic's backlog in place
(the entry persists until the topic is resubscribed and drained, or pruned).
Conjuncts: (1) the deferred-unsubscribe drain of a registered topic discards
its backlog; (2) the pruning path, when all registered senders are closed,
drops the topic's backlog entry; (3) if no sender is ready nothing is popped;
(4) explicit `unsubscribe` never changes the backlog map. -/
theorem backlog_removal_paths (w : World) (t : String) :
    (∀ chids, alookup t w.streams = some chids →
        alookup t (processNotification w t).queueMessages = none) ∧
    (∀ l chids, alookup t w.streams = some chids →
        (∀ chid ∈ chids, closedIn w.chans chid = true) →
        (drainTopicStep w t l).2 = none) ∧
    (∀ chans sids l, (∀ sid ∈ sids, readyIn chans sid = false) →
        drainSenders chans none l sids = (chans, none, l)) ∧
    ((unsubscribe w t).1.queueMessages = w.queueMessages) := by
  refine ⟨?_, ?_, ?_, ?_⟩
  · intro chids h1
    simp [processNotification, h1, engineUnsubscribeCall]
  · intro l chids h1 hcl
    unfold drainTopicStep
    by_cases he : l.isEmpty
    · simp [he]
    · have hfilter : chids.filter (fun chid => !closedIn w.chans chid) = [] := by
        apply List.filter_eq_nil_iff.mpr
        intro a ha
        simp [hcl a ha]
      simp [he, h1, hfilter]
  · intro chans sids l hnr
    induction sids with
    | nil => simp [drainSenders]
    | cons sid rest ih =>
        have hr := hnr sid (List.mem_cons_self sid rest)
        have hrest : ∀ s ∈ rest, readyIn chans s = false :=
          fun s hs => hnr s (List.mem_cons_of_mem _ hs)
        simp only [drainSenders]
        cases h : alookup sid chans with
        | none => exact ih hrest
        | some c =>
            have : c.isReady = false := by
              simp [readyIn, h] at hr
              exact hr
            simp only [this, Bool.false_eq_true, if_false]
            exact ih hrest
  · unfold unsubscribe
    cases h : alookup t w.streams with
    | none => rfl
    | some chids =>
        simp [engineUnsubscribeCall]
        by_cases hm : t ∈ w.engineSubscribed <;> simp [hm]

/-- Witness for C6's amended theorem: notification drain discards the
backlog of the registered topic; pruning with the (closed) dropped channel
discards it; a full channel is not handed anything; explicit unsubscribe
leaves the backlog map unchanged. -/
theorem backlog_removal_paths_witness :
    alookup "t" (processNotification oneSubWorld "t").queueMessages = none ∧
    (drainTopicStep (dropHandle oneSubWorld 2) "t" [msgA]).2 = none ∧
    drainSenders fanoutChans none [msgA] [1] = (fanoutChans, none, [msgA]) ∧
    (unsubscribe backlogWorld "t").1.queueMessages = backlogWorld.queueMessages :=
  ⟨(backlog_removal_paths oneSubWorld "t").1 [1] (by decide),
    (backlog_removal_paths (dropHandle oneSubWorld 2) "t").2.1 [msgA] [1] (by decide) (by decide),
    (backlog_removal_paths oneSubWorld "t").2.2.1 fanoutChans [1] [msgA] (by decide),
    (backlog_removal_paths backlogWorld "t").2.2.2⟩

/-! ### Field-preservation lemmas for the poll machinery -/

theorem engineUnsubscribeCall_keeps (w : World) (t : String) :
    (engineUnsubscribeCall w t).1.handles = w.handles ∧
    (engineUnsubscribeCall w t).1.nextId = w.nextId ∧
    (engineUnsubscribeCall w t).1.unsubQueue = w.unsubQueue ∧
    (engineUnsubscribeCall w t).1.chans = w.chans ∧
    (engineUnsubscribeCall w t).1.streams = w.streams ∧
    (engineUnsubscribeCall w t).1.activeStreams = w.activeStreams ∧
    (engineUnsubscribeCall w t).1.queueMessages = w.queueMessages := by
  unfold engineUnsubscribeCall
  by_cases hm : t ∈ w.engineSubscribed <;> simp [hm]

theorem processNotification_keeps (w : World) (t : String) :
    (processNotification w t).handles = w.handles ∧
    (processNotification w t).nextId = w.nextId ∧
    (processNotification w t).unsubQueue = w.unsubQueue := by
  unfold processNotification
  cases h : alookup t w.streams with
  | none => exact ⟨rfl, rfl, rfl⟩
  | some chids =>
      have hk := engineUnsubscribeCall_keeps
        { w with streams := aerase t w.streams, chans := closeChans chids w.chans } t
      simp only []
      exact ⟨hk.1, hk.2.1, hk.2.2.1⟩

theorem drainNotifications_keeps (w : World) :
    (drainNotifications w).handles = w.handles ∧ (drainNotifications w).nextId = w.nextId := by
  unfold drainNotifications
  have main : ∀ (l : List String) (w0 : World),
      (l.foldl processNotification w0).handles = w0.handles ∧
      (l.foldl processNotification w0).nextId = w0.nextId := by
    intro l
    induction l with
    | nil => intro w0; exact ⟨rfl, rfl⟩
    | cons t rest ih =>
        intro w0
        have h1 := processNotification_keeps w0 t
        have h2 := ih (processNotification w0 t)
        simp only [List.foldl_cons]
        exact ⟨h2.1.trans h1.1, h2.2.trans h1.2.1⟩
  exact main w.unsubQueue { w with unsubQueue := [] }

theorem drainTopicStep_keeps (w : World) (t : String) (l : List Msg) :
    (drainTopicStep w t l).1.handles = w.handles ∧
    (drainTopicStep w t l).1.nextId = w.nextId ∧
    (drainTopicStep w t l).1.unsubQueue = w.unsubQueue ∧
    (drainTopicStep w t l).1.queueMessages = w.queueMessages := by
  unfold drainTopicStep
  by_cases he : l.isEmpty
  · simp [he]
  · simp only [he, Bool.false_eq_true, if_false]
    cases h : alookup t w.streams with
    | none => exact ⟨rfl, rfl, rfl, rfl⟩
    | some chids =>
        by_cases hempty : (chids.filter (fun chid => !closedIn w.chans chid)).isEmpty
        · have hk := engineUnsubscribeCall_keeps { w with streams := aerase t w.streams } t
          simp only [hempty, if_true]
          exact ⟨hk.1, hk.2.1, hk.2.2.1, hk.2.2.2.2.2.2⟩
        · simp [hempty]

theorem drainPass_keeps (w : World) :
    (drainPass w).handles = w.handles ∧
    (drainPass w).nextId = w.nextId ∧
    (drainPass w).unsubQueue = w.unsubQueue := by
  unfold drainPass
  by_cases he : w.queueMessages.isEmpty
  · simp [he]
  · simp only [he, Bool.false_eq_true, if_false]
    have main : ∀ (entries : List (String × List Msg)) (acc : World × List (String × List Msg)),
        (entries.foldl drainStep acc).1.handles = acc.1.handles ∧
        (entries.foldl drainStep acc).1.nextId = acc.1.nextId ∧
        (entries.foldl drainStep acc).1.unsubQueue = acc.1.unsubQueue := by
      intro entries
      induction entries with
      | nil => intro acc; exact ⟨rfl, rfl, rfl⟩
      | cons p rest ih =>
          intro acc
          have hstep : (drainStep acc p).1.handles = acc.1.handles ∧
              (drainStep acc p).1.nextId = acc.1.nextId ∧
              (drainStep acc p).1.unsubQueue = acc.1.unsubQueue := by
            unfold drainStep
            have hk := drainTopicStep_keeps acc.1 p.1 p.2
            cases hs : drainTopicStep acc.1 p.1 p.2 with
            | mk w' kept =>
                cases kept with
                | none =>
                    simp only [hs] at hk
                    exact ⟨hk.1, hk.2.1, hk.2.2.1⟩
                | some lk =>
                    simp only [hs] at hk
                    exact ⟨hk.1, hk.2.1, hk.2.2.1⟩
          have h2 := ih (drainStep acc p)
          simp only [List.foldl_cons]
          exact ⟨h2.1.trans hstep.1, h2.2.1.trans hstep.2.1, h2.2.2.trans hstep.2.2⟩
    have hm := main w.queueMessages ({ w with queueMessages := [] }, [])
    exact ⟨hm.1, hm.2.1, hm.2.2⟩

theorem pollLoop_keeps (events : List EngineEvent) (w : World) :
    (pollLoop events w).1.handles = w.handles ∧ (pollLoop events w).1.nextId = w.nextId := by
  induction events generalizing w with
  | nil =>
      have := drainPass_keeps w
      exact ⟨this.1, this.2.1⟩
  | cons e rest ih =>
      have hd := drainPass_keeps w
      cases e with
      | message m =>
          have h2 := ih { drainPass w with
            queueMessages := apush m.topic m (drainPass w).queueMessages }
          simp only [pollLoop]
          exact ⟨h2.1.trans hd.1, h2.2.trans hd.2.1⟩
      | subscribed p tp => exact ⟨hd.1, hd.2.1⟩
      | unsubscribed p tp => exact ⟨hd.1, hd.2.1⟩
      | other a => exact ⟨hd.1, hd.2.1⟩

theorem pollOnce_keeps (w : World) (events : List EngineEvent) :
    (pollOnce w events).1.handles = w.handles ∧ (pollOnce w events).1.nextId = w.nextId := by
  unfold pollOnce
  have h1 := pollLoop_keeps events (drainNotifications w)
  have h2 := drainNotifications_keeps w
  exact ⟨h1.1.trans h2.1, h1.2.trans h2.2⟩

theorem unsubscribe_keeps (w : World) (t : String) :
    (unsubscribe w t).1.handles = w.handles ∧ (unsubscribe w t).1.nextId = w.nextId := by
  unfold unsubscribe
  cases h : alookup t w.streams with
  | some chids =>
      have hk := engineUnsubscribeCall_keeps
        { w with streams := aerase t w.streams, chans := closeChans chids w.chans,
                 activeStreams := aerase t w.activeStreams } t
      exact ⟨hk.1, hk.2.1⟩
  | none => exact ⟨rfl, rfl⟩

theorem forfeited_append (w : World) (hid : Nat) (hf : Forfeited w hid) (hlt : hid < w.nextId)
    (k : Nat) (h₀ : Handle) (hk : w.nextId ≤ k) :
    ∀ h, alookup hid (w.handles ++ [(k, h₀)]) = some h → h.onDrop = false := by
  intro h hl
  cases hwh : alookup hid w.handles with
  | some h2 =>
      rw [alookup_append_of_some hwh] at hl
      injection hl with he
      subst he
      exact hf _ hwh
  | none =>
      rw [alookup_append_of_none hwh] at hl
      have hne : k ≠ hid := by omega
      simp [alookup, hne] at hl

theorem recvOnce_endOfStream_handles (w : World) (hid : Nat) (w' : World)
    (hrec : recvOnce w hid = (w', RecvResult.endOfStream)) :
    w'.handles = amodify hid (fun h0 => { h0 with onDrop := false }) w.handles := by
  unfold recvOnce at hrec
  split at hrec
  · injection hrec with h1 h2; exact RecvResult.noConfusion h2
  · split at hrec
    · injection hrec with h1 h2; exact RecvResult.noConfusion h2
    · split at hrec
      · injection hrec with h1 h2; exact RecvResult.noConfusion h2
      · split at hrec
        · injection hrec with h1 h2
          rw [← h1]
        · injection hrec with h1 h2; exact RecvResult.noConfusion h2

theorem recvOnce_fields (w : World) (i : Nat) :
    ((recvOnce w i).1.handles = w.handles ∨
      (recvOnce w i).1.handles = amodify i (fun h0 => { h0 with onDrop := false }) w.handles) ∧
    (recvOnce w i).1.nextId = w.nextId := by
  unfold recvOnce
  split
  · exact ⟨Or.inl rfl, rfl⟩
  · split
    · exact ⟨Or.inl rfl, rfl⟩
    · split
      · exact ⟨Or.inl rfl, rfl⟩
      · split
        · exact ⟨Or.inr rfl, rfl⟩
        · exact ⟨Or.inl rfl, rfl⟩

theorem dropHandle_fields (w : World) (i : Nat) :
    ((dropHandle w i).handles = w.handles ∨ (dropHandle w i).handles = aerase i w.handles) ∧
    (dropHandle w i).nextId = w.nextId := by
  cases hi : alookup i w.handles with
  | none => simp [dropHandle, hi]
  | some h0 =>
      by_cases hn : (alookup h0.counter w.counters).getD 0 = 1
      · by_cases hod : h0.onDrop
        · cases ht : h0.topic with
          | some tp => simp [dropHandle, hi, hn, hod, ht]
          | none => simp [dropHandle, hi, hn, hod, ht]
        · simp [dropHandle, hi, hn, hod]
      · simp [dropHandle, hi, hn]

/-- Claim C8: (1) once `poll_next` observes end-of-stream the stored handle
has forfeited its deferred-unsubscribe right and `is_terminated` reports
true; (2) destroying a handle whose right is forfeited enqueues no
deferred-unsubscribe notification; (3) the right is never re-acquired: every
operation of the component maps a forfeited handle to a forfeited (or
removed) handle. -/
theorem end_of_stream_forfeits_right :
    (∀ (w : World) (hid : Nat) (w' : World),
        recvOnce w hid = (w', RecvResult.endOfStream) →
        ∀ h', alookup hid w'.handles = some h' →
          h'.onDrop = false ∧ isTerminated h' = true) ∧
    (∀ (w : World) (hid : Nat) (h : Handle), alookup hid w.handles = some h →
        h.onDrop = false → (dropHandle w hid).unsubQueue = w.unsubQueue) ∧
    (∀ (w : World) (hid : Nat) (op : GOp), Forfeited w hid → hid < w.nextId →
        Forfeited (execG w op) hid ∧ hid < (execG w op).nextId) := by
  refine ⟨?_, ?_, ?_⟩
  · intro w hid w' hrec h' hl'
    have hh := recvOnce_endOfStream_handles w hid w' hrec
    rw [hh, alookup_amodify_self] at hl'
    cases hx : alookup hid w.handles with
    | none => rw [hx] at hl'; cases hl'
    | some hy =>
        rw [hx] at hl'
        simp only [Option.map_some'] at hl'
        cases hl'
        exact ⟨rfl, rfl⟩
  · intro w hid h hh hod
    by_cases hn : (alookup h.counter w.counters).getD 0 = 1
    · simp [dropHandle, hh, hod, hn]
    · simp [dropHandle, hh, hn]
  · intro w hid op hf hlt
    cases op with
    | subOp t =>
        show Forfeited (subscribe w t).1 hid ∧ hid < (subscribe w t).1.nextId
        unfold subscribe
        cases hs : alookup t w.streams with
        | none =>
            unfold engineSubscribeCall
            by_cases hm : t ∈ w.engineSubscribed
            · simp only [hm, if_true]
              unfold subscribeVacantResult
              exact ⟨fun h hl => hf h hl, hlt⟩
            · simp only [hm, if_false]
              unfold subscribeVacantResult
              refine ⟨?_, by simp; omega⟩
              intro h hl
              refine forfeited_append w hid hf hlt (w.nextId + 2)
                { onDrop := true, topic := some t, chan := w.nextId + 1, counter := w.nextId }
                (by omega) h ?_
              simpa [ainsert] using hl
        | some chids =>
            unfold subscribeOccupied
            cases hc : alookup t w.activeStreams with
            | none => exact ⟨hf, hlt⟩
            | some cid =>
                refine ⟨?_, by simp; omega⟩
                intro h hl
                refine forfeited_append w hid hf hlt (w.nextId + 1)
                  { onDrop := true, topic := some t, chan := w.nextId, counter := cid }
                  (by omega) h ?_
                simpa [ainsert] using hl
    | unsubOp t =>
        have hk := unsubscribe_keeps w t
        show Forfeited (unsubscribe w t).1 hid ∧ hid < (unsubscribe w t).1.nextId
        rw [hk.2]
        refine ⟨?_, hlt⟩
        intro h hl
        rw [hk.1] at hl
        exact hf h hl
    | dropOp i =>
        obtain ⟨hfields, hnid⟩ := dropHandle_fields w i
        show Forfeited (dropHandle w i) hid ∧ hid < (dropHandle w i).nextId
        rw [hnid]
        refine ⟨?_, hlt⟩
        intro h hl
        cases hfields with
        | inl he => rw [he] at hl; exact hf h hl
        | inr he =>
            rw [he] at hl
            by_cases hii : i = hid
            · subst hii
              rw [alookup_aerase_self] at hl
              cases hl
            · rw [alookup_aerase_ne hii] at hl
              exact hf h hl
    | recvOp i =>
        obtain ⟨hfields, hnid⟩ := recvOnce_fields w i
        show Forfeited (recvOnce w i).1 hid ∧ hid < (recvOnce w i).1.nextId
        rw [hnid]
        refine ⟨?_, hlt⟩
        intro h hl
        cases hfields with
        | inl he => rw [he] at hl; exact hf h hl
        | inr he =>
            rw [he] at hl
            by_cases hii : i = hid
            · subst hii
              rw [alookup_amodify_self] at hl
              cases hx : alookup i w.handles with
              | none => rw [hx] at hl; cases hl
              | some hy =>
                  rw [hx] at hl
                  simp only [Option.map_some'] at hl
                  cases hl
                  rfl
            · rw [alookup_amodify_ne hii] at hl
              exact hf h hl
    | pollOp ev =>
        have hk := pollOnce_keeps w ev
        show Forfeited (pollOnce w ev).1 hid ∧ hid < (pollOnce w ev).1.nextId
        rw [hk.2]
        refine ⟨?_, hlt⟩
        intro h hl
        rw [hk.1] at hl
        exact hf h hl

/-- Witness for C8: in the world where handle 2's channel has been closed by
an explicit unsubscribe, one receive observes end-of-stream, the stored
handle is terminated, its destruction enqueues nothing, and the forfeited
state persists across a further poll. -/
theorem end_of_stream_forfeits_right_witness :
    (∀ h', alookup 2 (recvOnce (unsubscribe oneSubWorld "t").1 2).1.handles = some h' →
        h'.onDrop = false ∧ isTerminated h' = true) ∧
    (dropHandle (recvOnce (unsubscribe oneSubWorld "t").1 2).1 2).unsubQueue =
      (recvOnce (unsubscribe oneSubWorld "t").1 2).1.unsubQueue ∧
    (Forfeited (execG (recvOnce (unsubscribe oneSubWorld "t").1 2).1 (GOp.pollOp [])) 2 ∧
      2 < (execG (recvOnce (unsubscribe oneSubWorld "t").1 2).1 (GOp.pollOp [])).nextId) :=
  ⟨fun h' hl => end_of_stream_forfeits_right.1 (unsubscribe oneSubWorld "t").1 2 _ (by decide) h' hl,
    end_of_stream_forfeits_right.2.1 (recvOnce (unsubscribe oneSubWorld "t").1 2).1 2
      { onDrop := false, topic := some "t", chan := 1, counter := 0 } (by decide) rfl,
    end_of_stream_forfeits_right.2.2 (recvOnce (unsubscribe oneSubWorld "t").1 2).1 2
      (GOp.pollOp [])
      (fun h hl => by
        have hx : alookup 2 (recvOnce (unsubscribe oneSubWorld "t").1 2).1.handles =
            some { onDrop := false, topic := some "t", chan := 1, counter := 0 } := by decide
        rw [hx] at hl
        cases hl
        rfl)
      (by decide)⟩

/-- Claim C9, counterexample.  Explicit unsubscribe of `"t"` succeeds while
handle 2 is live.  The topic is then re-subscribed (handle 5).  Dropping the
stale handle 2 enqueues a deferred-unsubscribe notification (its counter
still reads 1), and the next poll processes it: the engine's unsubscribe is
invoked for `"t"` a second time as a consequence of handle 2's destruction,
tearing down handle 5's fresh subscription.  This refutes "no later
destruction of any of them causes the Protocol Engine's unsubscribe to be
invoked again for that topic". -/
theorem stale_drop_triggers_second_unsubscribe :
    (unsubscribe oneSubWorld "t").2 = Except.ok true ∧
    staleDropWorld.engineTrace =
      [EngineCall.subscribe "t", EngineCall.unsubscribe "t", EngineCall.subscribe "t"] ∧
    staleDropWorld.unsubQueue = ["t"] ∧
    (pollOnce staleDropWorld []).1.engineTrace =
      [EngineCall.subscribe "t", EngineCall.unsubscribe "t", EngineCall.subscribe "t",
        EngineCall.unsubscribe "t"] ∧
    alookup "t" (pollOnce staleDropWorld []).1.streams = none ∧
    (alookup 5 (pollOnce staleDropWorld []).1.handles).map Handle.topic = some (some "t") :=
  ⟨rfl, rfl, rfl, rfl, rfl, rfl⟩

/-- Claim C9, amended: after an explicit unsubscribe succeeds, every producer
end registered for the topic is closed, so each live handle's receive side
yields its buffered messages and then end-of-stream; and provided the topic
is not re-subscribed before the handles' notifications are drained, no
destruction of those handles makes the engine unsubscribe again: a drop never
invokes the engine itself, and a deferred notification for a topic that has
no registry entry is ignored by the poll loop.  (The counterexample shows the
proviso is necessary: with a re-subscription in between, the stale
notification does trigger a second engine unsubscribe.) -/
theorem unsubscribe_live_handles_spec (w : World) (t : String) (chids : List Nat)
    (hs : alookup t w.streams = some chids) :
    (∀ chid ∈ chids, ∀ c, alookup chid w.chans = some c →
        alookup chid (unsubscribe w t).1.chans = some { c with closed := true }) ∧
    (∀ (w2 : World) (hid : Nat) (h : Handle) (c : Chan),
        alookup hid w2.handles = some h → alookup h.chan w2.chans = some c →
        c.closed = true →
        ((c.buf = [] → (recvOnce w2 hid).2 = RecvResult.endOfStream) ∧
         (∀ m rest, c.buf = m :: rest → (recvOnce w2 hid).2 = RecvResult.item m ∧
            alookup h.chan (recvOnce w2 hid).1.chans = some { c with buf := rest }))) ∧
    (∀ (w2 : World) (hid : Nat), (dropHandle w2 hid).engineTrace = w2.engineTrace) ∧
    (∀ w2 : World, alookup t w2.streams = none → processNotification w2 t = w2) := by
  refine ⟨?_, ?_, ?_, ?_⟩
  · intro chid hmem c hc
    have hchans : (unsubscribe w t).1.chans = closeChans chids w.chans := by
      unfold unsubscribe
      rw [hs]
      have hk := engineUnsubscribeCall_keeps
        { w with streams := aerase t w.streams, chans := closeChans chids w.chans,
                 activeStreams := aerase t w.activeStreams } t
      exact hk.2.2.2.1
    rw [hchans, alookup_closeChans]
    simp [hmem, hc]
  · intro w2 hid h c hh hc hcl
    constructor
    · intro hb
      simp [recvOnce, hh, hc, hb, hcl]
    · intro m rest hb
      constructor
      · simp [recvOnce, hh, hc, hb]
      · simp only [recvOnce, hh, hc, hb]
        rw [alookup_amodify_self, hc]
        simp [hb]
  · intro w2 hid
    cases hi : alookup hid w2.handles with
    | none => simp [dropHandle, hi]
    | some h0 =>
        by_cases hn : (alookup h0.counter w2.counters).getD 0 = 1
        · by_cases hod : h0.onDrop
          · cases ht : h0.topic with
            | some tp => simp [dropHandle, hi, hn, hod, ht]
            | none => simp [dropHandle, hi, hn, hod, ht]
          · simp [dropHandle, hi, hn, hod]
        · simp [dropHandle, hi, hn]
  · intro w2 hn
    simp [processNotification, hn]

/-- Witness for C9's amended theorem, on the one-subscriber world. -/
theorem unsubscribe_live_handles_spec_witness :
    alookup "t" oneSubWorld.streams = some [1] ∧
    alookup 1 (unsubscribe oneSubWorld "t").1.chans = some { buf := [], closed := true } ∧
    (recvOnce (unsubscribe oneSubWorld "t").1 2).2 = RecvResult.endOfStream ∧
    (dropHandle oneSubWorld 2).engineTrace = oneSubWorld.engineTrace ∧
    processNotification (unsubscribe oneSubWorld "t").1 "t" = (unsubscribe oneSubWorld "t").1 :=
  ⟨by decide,
    (unsubscribe_live_handles_spec oneSubWorld "t" [1] (by decide)).1 1 (by decide)
      { buf := [], closed := false } (by decide),
    ((unsubscribe_live_handles_spec oneSubWorld "t" [1] (by decide)).2.1
      (unsubscribe oneSubWorld "t").1 2
      { onDrop := true, topic := some "t", chan := 1, counter := 0 }
      { buf := [], closed := true } (by decide) (by decide) rfl).1 rfl,
    (unsubscribe_live_handles_spec oneSubWorld "t" [1] (by decide)).2.2.1 oneSubWorld 2,
    (unsubscribe_live_handles_spec oneSubWorld "t" [1] (by decide)).2.2.2
      (unsubscribe oneSubWorld "t").1 (by decide)⟩

/-! ### Alignment of the registry and counter maps (claim C10) -/

theorem alookup_append_one_isSome {α β : Type} [DecidableEq α] (s k : α) (v : β)
    (l : List (α × β)) :
    (alookup s (l ++ [(k, v)])).isSome = ((alookup s l).isSome || decide (k = s)) := by
  cases h : alookup s l with
  | some x => rw [alookup_append_of_some h]; simp
  | none =>
      rw [alookup_append_of_none h]
      by_cases hk : k = s <;> simp [alookup, hk]

theorem keysAligned_aerase (w : World) (t : String) (h : keysAligned w) (w' : World)
    (hs : w'.streams = aerase t w.streams) (ha : w'.activeStreams = aerase t w.activeStreams) :
    keysAligned w' := by
  intro s
  rw [hs, ha]
  by_cases hst : t = s
  · subst hst; simp
  · rw [alookup_aerase_ne hst, alookup_aerase_ne hst]
    exact h s

theorem keysAligned_amodify_streams (w : World) (t : String) (f : List Nat → List Nat)
    (h : keysAligned w) (w' : World)
    (hs : w'.streams = amodify t f w.streams) (ha : w'.activeStreams = w.activeStreams) :
    keysAligned w' := by
  intro s
  rw [hs, ha]
  by_cases hst : t = s
  · subst hst
    rw [alookup_amodify_self]
    have hh := h t
    cases hx : alookup t w.streams with
    | none => rw [hx] at hh; simpa using hh
    | some v => rw [hx] at hh; simpa using hh
  · rw [alookup_amodify_ne hst]
    exact h s

theorem keysAligned_append (w : World) (t : String) (cid : Nat) (chids : List Nat)
    (h : keysAligned w) (w' : World)
    (hs : w'.streams = w.streams ++ [(t, chids)])
    (ha : w'.activeStreams = w.activeStreams ++ [(t, cid)]) : keysAligned w' := by
  intro s
  rw [hs, ha, alookup_append_one_isSome, alookup_append_one_isSome]
  simp [Bool.or_eq_true, h s]

theorem keysAligned_processNotification (w : World) (t : String) (h : keysAligned w) :
    keysAligned (processNotification w t) := by
  unfold processNotification
  cases hs : alookup t w.streams with
  | none => exact h
  | some chids =>
      have hk := engineUnsubscribeCall_keeps
        { w with streams := aerase t w.streams, chans := closeChans chids w.chans } t
      refine keysAligned_aerase w t h _ ?_ ?_
      · exact hk.2.2.2.2.1
      · exact congrArg (aerase t) hk.2.2.2.2.2.1

theorem keysAligned_drainTopicStep (w : World) (t : String) (l : List Msg) (h : keysAligned w) :
    keysAligned (drainTopicStep w t l).1 := by
  unfold drainTopicStep
  by_cases he : l.isEmpty
  · simp only [he, if_true]; exact h
  · simp only [he, Bool.false_eq_true, if_false]
    cases hs : alookup t w.streams with
    | none => exact h
    | some chids =>
        by_cases hemp : (chids.filter (fun chid => !closedIn w.chans chid)).isEmpty
        · simp only [hemp, if_true]
          have hk := engineUnsubscribeCall_keeps { w with streams := aerase t w.streams } t
          refine keysAligned_aerase w t h _ ?_ ?_
          · exact hk.2.2.2.2.1
          · exact congrArg (aerase t) hk.2.2.2.2.2.1
        · simp only [hemp, Bool.false_eq_true, if_false]
          exact keysAligned_amodify_streams w t _ h _ rfl rfl

theorem keysAligned_drainStep (acc : World × List (String × List Msg))
    (p : String × List Msg) (h : keysAligned acc.1) : keysAligned (drainStep acc p).1 := by
  unfold drainStep
  have hstep := keysAligned_drainTopicStep acc.1 p.1 p.2 h
  cases hds : drainTopicStep acc.1 p.1 p.2 with
  | mk w' kept =>
      rw [hds] at hstep
      cases kept <;> exact hstep

theorem keysAligned_drainPass (w : World) (h : keysAligned w) : keysAligned (drainPass w) := by
  unfold drainPass
  by_cases he : w.queueMessages.isEmpty
  · simp only [he, if_true]; exact h
  · simp only [he, Bool.false_eq_true, if_false]
    have main : ∀ (entries : List (String × List Msg)) (acc : World × List (String × List Msg)),
        keysAligned acc.1 → keysAligned (entries.foldl drainStep acc).1 := by
      intro entries
      induction entries with
      | nil => intro acc hacc; exact hacc
      | cons p rest ih =>
          intro acc hacc
          simp only [List.foldl_cons]
          exact ih _ (keysAligned_drainStep acc p hacc)
    exact main w.queueMessages ({ w with queueMessages := [] }, []) h

theorem keysAligned_pollLoop (events : List EngineEvent) (w : World) (h : keysAligned w) :
    keysAligned (pollLoop events w).1 := by
  induction events generalizing w with
  | nil => exact keysAligned_drainPass w h
  | cons e rest ih =>
      cases e with
      | message m => exact ih _ (keysAligned_drainPass w h)
      | subscribed p tp => exact keysAligned_drainPass w h
      | unsubscribed p tp => exact keysAligned_drainPass w h
      | other a => exact keysAligned_drainPass w h

theorem keysAligned_drainNotifications (w : World) (h : keysAligned w) :
    keysAligned (drainNotifications w) := by
  unfold drainNotifications
  have main : ∀ (l : List String) (w0 : World), keysAligned w0 →
      keysAligned (l.foldl processNotification w0) := by
    intro l
    induction l with
    | nil => intro w0 h0; exact h0
    | cons t rest ih =>
        intro w0 h0
        simp only [List.foldl_cons]
        exact ih _ (keysAligned_processNotification w0 t h0)
  exact main w.unsubQueue _ h

theorem dropHandle_registry (w : World) (i : Nat) :
    (dropHandle w i).streams = w.streams ∧ (dropHandle w i).activeStreams = w.activeStreams := by
  cases hi : alookup i w.handles with
  | none => simp [dropHandle, hi]
  | some h0 =>
      by_cases hn : (alookup h0.counter w.counters).getD 0 = 1
      · by_cases hod : h0.onDrop
        · cases ht : h0.topic with
          | some tp => simp [dropHandle, hi, hn, hod, ht]
          | none => simp [dropHandle, hi, hn, hod, ht]
        · simp [dropHandle, hi, hn, hod]
      · simp [dropHandle, hi, hn]

theorem recvOnce_registry (w : World) (i : Nat) :
    (recvOnce w i).1.streams = w.streams ∧ (recvOnce w i).1.activeStreams = w.activeStreams := by
  unfold recvOnce
  split
  · exact ⟨rfl, rfl⟩
  · split
    · exact ⟨rfl, rfl⟩
    · split
      · exact ⟨rfl, rfl⟩
      · split
        · exact ⟨rfl, rfl⟩
        · exact ⟨rfl, rfl⟩

/-- Claim C10: every operation preserves the invariant that the topics of the
producer-list registry (`streams`) and of the counter map (`active_streams`)
coincide; consequently the "No active stream" failure in the occupied branch
of `subscribe` is unreachable from aligned states. -/
theorem registry_counter_alignment (w : World) (h : keysAligned w) :
    (∀ op : GOp, keysAligned (execG w op)) ∧
    (∀ t, (subscribe w t).2 ≠ Except.error SubErr.noActiveStream) := by
  constructor
  · intro op
    cases op with
    | subOp t =>
        show keysAligned (subscribe w t).1
        unfold subscribe
        cases hs : alookup t w.streams with
        | none =>
            unfold engineSubscribeCall
            by_cases hm : t ∈ w.engineSubscribed
            · simp only [hm, if_true]
              unfold subscribeVacantResult
              exact fun s => h s
            · simp only [hm, if_false]
              unfold subscribeVacantResult
              exact keysAligned_append w t w.nextId [w.nextId + 1] h _ rfl rfl
        | some chids =>
            unfold subscribeOccupied
            cases hc : alookup t w.activeStreams with
            | none => exact h
            | some cid => exact keysAligned_amodify_streams w t _ h _ rfl rfl
    | unsubOp t =>
        show keysAligned (unsubscribe w t).1
        unfold unsubscribe
        cases hs : alookup t w.streams with
        | none => exact h
        | some chids =>
            have hk := engineUnsubscribeCall_keeps
              { w with streams := aerase t w.streams, chans := closeChans chids w.chans,
                       activeStreams := aerase t w.activeStreams } t
            refine keysAligned_aerase w t h _ ?_ ?_
            · exact hk.2.2.2.2.1
            · exact hk.2.2.2.2.2.1
    | dropOp i =>
        show keysAligned (dropHandle w i)
        intro s
        rw [(dropHandle_registry w i).1, (dropHandle_registry w i).2]
        exact h s
    | recvOp i =>
        show keysAligned (recvOnce w i).1
        intro s
        rw [(recvOnce_registry w i).1, (recvOnce_registry w i).2]
        exact h s
    | pollOp ev =>
        exact keysAligned_pollLoop ev (drainNotifications w) (keysAligned_drainNotifications w h)
  · intro t
    unfold subscribe
    cases hs : alookup t w.streams with
    | none =>
        unfold engineSubscribeCall
        by_cases hm : t ∈ w.engineSubscribed
        · simp only [hm, if_true]
          unfold subscribeVacantResult
          intro hcon
          injection hcon with hx
          cases hx
        · simp only [hm, if_false]
          unfold subscribeVacantResult
          intro hcon
          cases hcon
    | some chids =>
        unfold subscribeOccupied
        cases hc : alookup t w.activeStreams with
        | none =>
            exfalso
            have h1 : (alookup t w.streams).isSome = true := by rw [hs]; rfl
            have h2 := (h t).mp h1
            rw [hc] at h2
            simp at h2
        | some cid =>
            intro hcon
            cases hcon

/-- Witness for C10 on the one-subscriber world. -/
theorem registry_counter_alignment_witness :
    keysAligned oneSubWorld ∧ keysAligned (execG oneSubWorld (GOp.pollOp [])) ∧
    (∀ t, (subscribe oneSubWorld t).2 ≠ Except.error SubErr.noActiveStream) := by
  have hal : keysAligned oneSubWorld := by
    intro s
    have h1 : oneSubWorld.streams = [("t", [1])] := by decide
    have h2 : oneSubWorld.activeStreams = [("t", 0)] := by decide
    rw [h1, h2]
    by_cases hs : "t" = s <;> simp [alookup, hs]
  exact ⟨hal, (registry_counter_alignment oneSubWorld hal).1 (GOp.pollOp []),
    (registry_counter_alignment oneSubWorld hal).2⟩

/-! ### Lemmas for the single-topic lifecycle (claim C2) -/

theorem alookup_mem {α β : Type} [DecidableEq α] {k : α} {v : β} :
    ∀ {l : List (α × β)}, alookup k l = some v → (k, v) ∈ l := by
  intro l
  induction l with
  | nil => intro h; simp [alookup] at h
  | cons p rest ih =>
      intro h
      obtain ⟨k', v'⟩ := p
      by_cases hk : k' = k
      · subst hk
        simp only [alookup, if_pos rfl] at h
        injection h with he
        subst he
        exact List.mem_cons_self _ _
      · simp only [alookup, hk, if_false] at h
        exact List.mem_cons_of_mem _ (ih h)

theorem aerase_of_not_mem {α β : Type} [DecidableEq α] {k : α} :
    ∀ {l : List (α × β)}, k ∉ l.map Prod.fst → aerase k l = l := by
  intro l
  induction l with
  | nil => intro _; rfl
  | cons p rest ih =>
      intro h
      obtain ⟨k', v'⟩ := p
      have h1 : k' ≠ k := by
        intro he
        exact h (by simp [he])
      have h2 : k ∉ rest.map Prod.fst := by
        intro he
        exact h (by simp [he])
      simp [aerase, h1, ih h2]

theorem aerase_sublist {α β : Type} [DecidableEq α] (k : α) (l : List (α × β)) :
    List.Sublist (aerase k l) l := by
  induction l with
  | nil => simp [aerase]
  | cons p rest ih =>
      obtain ⟨k', v'⟩ := p
      by_cases hk : k' = k
      · simp only [aerase, hk, if_pos rfl]
        exact ih.cons _
      · simp only [aerase, hk, if_false]
        exact ih.cons₂ _

theorem aerase_length_of_mem {α β : Type} [DecidableEq α] {k : α} {v : β} :
    ∀ {l : List (α × β)}, (l.map Prod.fst).Nodup → alookup k l = some v →
      (aerase k l).length + 1 = l.length := by
  intro l
  induction l with
  | nil => intro _ h; simp [alookup] at h
  | cons p rest ih =>
      intro hnd h
      obtain ⟨k', v'⟩ := p
      have hnd' : (rest.map Prod.fst).Nodup := (List.nodup_cons.mp (by simpa using hnd)).2
      by_cases hk : k' = k
      · subst hk
        have hnm : k' ∉ rest.map Prod.fst := (List.nodup_cons.mp (by simpa using hnd)).1
        simp only [aerase, if_pos rfl]
        rw [aerase_of_not_mem hnm]
        simp
      · simp only [alookup, hk, if_false] at h
        simp only [aerase, hk, if_false, List.length_cons]
        rw [← ih hnd' h]

theorem usize_mod_self (n : Nat) (h : n < usizeMod) : n % usizeMod = n :=
  Nat.mod_eq_of_lt h

theorem usize_dec (n : Nat) (h1 : 1 ≤ n) (h2 : n < usizeMod) :
    (n + (usizeMod - 1)) % usizeMod = n - 1 := by
  have hM : usizeMod = 18446744073709551616 := by norm_num [usizeMod]
  rw [hM] at h2 ⊢
  omega

theorem subscribe_empty_eq (t : String) :
    subscribe emptyWorld t =
      ({ streams := [(t, [1])]
         activeStreams := [(t, 0)]
         counters := [(0, 1)]
         chans := [(1, { buf := [], closed := false })]
         unsubQueue := []
         queueMessages := []
         handles := [(2, { onDrop := true, topic := some t, chan := 1, counter := 0 })]
         engineSubscribed := [t]
         engineTrace := [EngineCall.subscribe t]
         nextId := 3 }, Except.ok 2) := by
  simp [subscribe, emptyWorld, engineSubscribeCall, subscribeVacantResult, ainsert, alookup]

theorem lifecycle_sub_pre (t : String) (w : World) (hp : PhasePre w) :
    PhaseLive t (subscribe w t).1 := by
  rw [show w = emptyWorld from hp, subscribe_empty_eq]
  refine ⟨[1], [(2, { onDrop := true, topic := some t, chan := 1, counter := 0 })],
    rfl, rfl, rfl, rfl, ?_, ?_, ?_, ?_, rfl, rfl, rfl, rfl⟩
  · simp
  · intro p hp2
    simp only [List.mem_singleton] at hp2
    subst hp2
    exact ⟨rfl, rfl, rfl⟩
  · simp
  · intro i hi
    simp only [List.map_cons, List.map_nil, List.mem_singleton] at hi
    subst hi
    simp

theorem lifecycle_sub_live (t : String) (w : World) (hl : PhaseLive t w)
    (hb : w.handles.length + 1 < usizeMod) : PhaseLive t (subscribe w t).1 := by
  obtain ⟨chids, hs, h1, h2, h3, h4, h5, h6, h7, h8, h9, h10, h11, h12⟩ := hl
  have hslen : hs.length + 1 < usizeMod := by rw [h4] at hb; exact hb
  have hlook : alookup t w.streams = some chids := by rw [h1]; simp [alookup]
  have hact : alookup t w.activeStreams = some 0 := by rw [h2]; simp [alookup]
  have hmain : (subscribe w t).1 = { w with
      chans := ainsert w.nextId { buf := [], closed := false } w.chans
      streams := amodify t (fun l => l ++ [w.nextId]) w.streams
      counters := amodify 0 (fun n => (n + 1) % usizeMod) w.counters
      handles := ainsert (w.nextId + 1)
        { onDrop := true, topic := some t, chan := w.nextId, counter := 0 } w.handles
      nextId := w.nextId + 2 } := by
    simp [subscribe, hlook, subscribeOccupied, hact]
  rw [hmain]
  refine ⟨chids ++ [w.nextId], hs ++ [(w.nextId + 1,
    { onDrop := true, topic := some t, chan := w.nextId, counter := 0 })],
    ?_, ?_, ?_, ?_, ?_, ?_, ?_, ?_, ?_, ?_, ?_, ?_⟩
  · show amodify t (fun l => l ++ [w.nextId]) w.streams = _
    rw [h1]
    simp [amodify]
  · exact h2
  · show amodify 0 (fun n => (n + 1) % usizeMod) w.counters = _
    rw [h3]
    simp only [amodify, if_pos rfl]
    rw [usize_mod_self (hs.length + 1) hslen]
    simp
  · show ainsert _ _ w.handles = _
    rw [h4]
    rfl
  · simp
  · intro p hp2
    rcases List.mem_append.mp hp2 with hold | hnew
    · exact h6 p hold
    · simp only [List.mem_singleton] at hnew
      subst hnew
      exact ⟨rfl, rfl, rfl⟩
  · rw [List.map_append]
    rw [List.nodup_append]
    refine ⟨h7, by simp, ?_⟩
    intro a ha hb2
    simp only [List.map_cons, List.map_nil, List.mem_singleton] at hb2
    have := h8 a ha
    omega
  · intro i hi
    rw [List.map_append] at hi
    rcases List.mem_append.mp hi with hold | hnew
    · have := h8 i hold
      show i < w.nextId + 2
      omega
    · simp only [List.map_cons, List.map_nil, List.mem_singleton] at hnew
      subst hnew
      show w.nextId + 1 < w.nextId + 2
      omega
  · exact h9
  · exact h10
  · exact h11
  · exact h12

theorem lifecycle_drop_live (t : String) (w : World) (i : Nat) (hl : PhaseLive t w)
    (hb : w.handles.length < usizeMod) :
    (dropHandle w i).handles.length ≤ w.handles.length ∧
      (PhaseLive t (dropHandle w i) ∨ PhasePending t (dropHandle w i)) := by
  obtain ⟨chids, hs, h1, h2, h3, h4, h5, h6, h7, h8, h9, h10, h11, h12⟩ := hl
  cases hi : alookup i w.handles with
  | none =>
      have hnd : dropHandle w i = w := by simp [dropHandle, hi]
      rw [hnd]
      exact ⟨le_refl _,
        Or.inl ⟨chids, hs, h1, h2, h3, h4, h5, h6, h7, h8, h9, h10, h11, h12⟩⟩
  | some h =>
      have hmem : (i, h) ∈ hs := by rw [h4] at hi; exact alookup_mem hi
      obtain ⟨hod0, htp0, hcnt0⟩ := h6 (i, h) hmem
      have hod : h.onDrop = true := hod0
      have htp : h.topic = some t := htp0
      have hcnt : h.counter = 0 := hcnt0
      have hcounters : alookup h.counter w.counters = some hs.length := by
        rw [hcnt, h3]; simp [alookup]
      by_cases hone : hs.length = 1
      · -- last live handle: enqueue the notification, do not decrement
        have hsing : hs = [(i, h)] := by
          cases hs with
          | nil => simp at hmem
          | cons p rest =>
              cases rest with
              | nil =>
                  simp only [List.mem_singleton] at hmem
                  rw [hmem]
              | cons q rest2 => simp at hone
        have hdrop : dropHandle w i = { w with
            handles := aerase i w.handles
            chans := amodify h.chan (fun c => { c with closed := true }) w.chans
            unsubQueue := w.unsubQueue ++ [t] } := by
          simp [dropHandle, hi, hcounters, hone, hod, htp]
        rw [hdrop]
        have herase : aerase i w.handles = [] := by
          rw [h4, hsing]
          simp [aerase]
        constructor
        · show (aerase i w.handles).length ≤ w.handles.length
          rw [herase]
          simp
        · right
          refine ⟨chids, h1, h2, ?_, herase, ?_, h10, h11, h12⟩
          · show w.counters = [(0, 1)]
            rw [h3, hone]
          · show w.unsubQueue ++ [t] = [t]
            rw [h9]
            rfl
      · -- other handles remain: decrement the counter
        have hlen1 : 1 ≤ hs.length := by
          cases hs with
          | nil => simp at hmem
          | cons p rest => simp
        have hlen2 : 2 ≤ hs.length := by omega
        have hltM : hs.length < usizeMod := by rw [h4] at hb; exact hb
        have hdrop : dropHandle w i = { w with
            handles := aerase i w.handles
            chans := amodify h.chan (fun c => { c with closed := true }) w.chans
            counters := amodify h.counter
              (fun v => (v + (usizeMod - 1)) % usizeMod) w.counters } := by
          simp [dropHandle, hi, hcounters, hone]
        rw [hdrop]
        have haerlen : (aerase i hs).length + 1 = hs.length := by
          rw [h4] at hi
          exact aerase_length_of_mem h7 hi
        constructor
        · show (aerase i w.handles).length ≤ w.handles.length
          rw [h4]
          omega
        · left
          refine ⟨chids, aerase i hs, h1, h2, ?_, by rw [h4], ?_, ?_, ?_, ?_, h9, h10, h11, h12⟩
          · show amodify h.counter (fun v => (v + (usizeMod - 1)) % usizeMod) w.counters =
              [(0, (aerase i hs).length)]
            rw [hcnt, h3]
            simp only [amodify, if_pos rfl]
            rw [usize_dec hs.length hlen1 hltM]
            have hx : (aerase i hs).length = hs.length - 1 := by omega
            rw [hx]
            simp
          · have hpos : 0 < (aerase i hs).length := by omega
            exact List.length_pos.mp hpos
          · intro p hp2
            exact h6 p ((aerase_sublist i hs).subset hp2)
          · exact List.Nodup.sublist (List.Sublist.map Prod.fst (aerase_sublist i hs)) h7
          · intro j hj
            have hj2 : j ∈ hs.map Prod.fst :=
              (List.Sublist.map Prod.fst (aerase_sublist i hs)).subset hj
            exact h8 j hj2

theorem dropHandle_nohandles (w : World) (i : Nat) (h : w.handles = []) : dropHandle w i = w := by
  have hn : alookup i w.handles = none := by rw [h]; rfl
  simp [dropHandle, hn]

theorem pollOnce_nil_idle (w : World) (h1 : w.unsubQueue = []) (h2 : w.queueMessages = []) :
    (pollOnce w []).1 = w := by
  have he : { w with unsubQueue := ([] : List String) } = w := by
    cases w
    simp_all
  show (pollLoop [] (drainNotifications w)).1 = w
  unfold drainNotifications
  rw [h1]
  simp only [List.foldl_nil]
  rw [he]
  show drainPass w = w
  unfold drainPass
  rw [h2]
  simp

theorem processNotification_some (w : World) (t : String) (chids : List Nat)
    (hs : alookup t w.streams = some chids) (hmem : t ∈ w.engineSubscribed) :
    processNotification w t = { w with
      streams := aerase t w.streams
      chans := closeChans chids w.chans
      activeStreams := aerase t w.activeStreams
      queueMessages := aerase t w.queueMessages
      engineTrace := w.engineTrace ++ [EngineCall.unsubscribe t]
      engineSubscribed := w.engineSubscribed.erase t } := by
  simp [processNotification, hs, engineUnsubscribeCall, hmem]

theorem lifecycle_poll_pending (t : String) (w : World) (hp : PhasePending t w) :
    PhaseDone t (pollOnce w []).1 := by
  obtain ⟨chids, h1, h2, h3, h4, h5, h6, h7, h8⟩ := hp
  have hlook : alookup t ({ w with unsubQueue := ([] : List String) }).streams = some chids := by
    show alookup t w.streams = some chids
    rw [h1]; simp [alookup]
  have hmem : t ∈ ({ w with unsubQueue := ([] : List String) }).engineSubscribed := by
    show t ∈ w.engineSubscribed
    rw [h8]
    exact List.mem_singleton.mpr rfl
  have hpn := processNotification_some { w with unsubQueue := [] } t chids hlook hmem
  have hd : drainNotifications w = processNotification { w with unsubQueue := [] } t := by
    unfold drainNotifications
    rw [h5]
    simp
  have hRs : (processNotification { w with unsubQueue := [] } t).streams = [] := by
    rw [hpn]
    show aerase t w.streams = []
    rw [h1]; simp [aerase]
  have hRa : (processNotification { w with unsubQueue := [] } t).activeStreams = [] := by
    rw [hpn]
    show aerase t w.activeStreams = []
    rw [h2]; simp [aerase]
  have hRc : (processNotification { w with unsubQueue := [] } t).counters = [(0, 1)] := by
    rw [hpn]; exact h3
  have hRh : (processNotification { w with unsubQueue := [] } t).handles = [] := by
    rw [hpn]; exact h4
  have hRu : (processNotification { w with unsubQueue := [] } t).unsubQueue = [] := by
    rw [hpn]
  have hRq : (processNotification { w with unsubQueue := [] } t).queueMessages = [] := by
    rw [hpn]
    show aerase t w.queueMessages = []
    rw [h6]
    rfl
  have hRt : (processNotification { w with unsubQueue := [] } t).engineTrace =
      [EngineCall.subscribe t, EngineCall.unsubscribe t] := by
    rw [hpn]
    show w.engineTrace ++ [EngineCall.unsubscribe t] = _
    rw [h7]
    rfl
  have hRe : (processNotification { w with unsubQueue := [] } t).engineSubscribed = [] := by
    rw [hpn]
    show w.engineSubscribed.erase t = []
    rw [h8]
    exact List.erase_cons_head t []
  have hdp : drainPass (processNotification { w with unsubQueue := [] } t) =
      processNotification { w with unsubQueue := [] } t := by
    unfold drainPass
    rw [hRq]
    simp
  show PhaseDone t (drainPass (drainNotifications w))
  rw [hd, hdp]
  exact ⟨hRs, hRa, hRc, hRh, hRu, hRq, hRt, hRe⟩

theorem subscribe_handles_len_live (t : String) (w : World) (hl : PhaseLive t w) :
    (subscribe w t).1.handles.length = w.handles.length + 1 := by
  obtain ⟨chids, hs, h1, h2, _, _, _, _, _, _, _, _, _, _⟩ := hl
  have hlook : alookup t w.streams = some chids := by rw [h1]; simp [alookup]
  have hact : alookup t w.activeStreams = some 0 := by rw [h2]; simp [alookup]
  have hmain : (subscribe w t).1.handles = ainsert (w.nextId + 1)
      { onDrop := true, topic := some t, chan := w.nextId, counter := 0 } w.handles := by
    simp [subscribe, hlook, subscribeOccupied, hact]
  rw [hmain]
  simp [ainsert]

/-- Claim C2, counterexample.  Sequence: subscribe (handle 2), drop handle 2
(a deferred-unsubscribe notification is enqueued since the counter reads 1),
subscribe again (handle 4, engine NOT asked again), poll.  The poll drains
the stale notification and invokes the engine's unsubscribe while handle 4 --
an outstanding handle for the topic that was never dropped -- is still live;
dropping handle 4 afterwards and polling again produces no further engine
call.  So the engine unsubscribe did not happen "at the first poll invocation
after the last outstanding handle for the topic is dropped": it happened
before that handle was dropped. -/
theorem resubscribe_race_unsubscribes_early :
    (execOps "t" emptyWorld [MOp.sub, MOp.dropH 2, MOp.sub]).engineTrace =
      [EngineCall.subscribe "t"] ∧
    (alookup 4 (execOps "t" emptyWorld [MOp.sub, MOp.dropH 2, MOp.sub]).handles).map
      Handle.topic = some (some "t") ∧
    (execOps "t" emptyWorld [MOp.sub, MOp.dropH 2, MOp.sub, MOp.poll]).engineTrace =
      [EngineCall.subscribe "t", EngineCall.unsubscribe "t"] ∧
    (alookup 4 (execOps "t" emptyWorld
        [MOp.sub, MOp.dropH 2, MOp.sub, MOp.poll]).handles).map Handle.topic =
      some (some "t") ∧
    (execOps "t" emptyWorld
        [MOp.sub, MOp.dropH 2, MOp.sub, MOp.poll, MOp.dropH 4, MOp.poll]).engineTrace =
      [EngineCall.subscribe "t", EngineCall.unsubscribe "t"] :=
  ⟨rfl, rfl, rfl, rfl, rfl⟩

/-- Claim C2, amended: for every sequence of subscribe / handle-drop / poll
operations on a single topic in which no subscribe happens while a
deferred-unsubscribe notification is pending (and fewer than `2 ^ 64`
subscribes occur), the system stays in the four-phase lifecycle: the engine's
subscribe is called exactly at the first local subscribe (trace goes from
`[]` to `[subscribe t]`, where it stays while handles live), the engine's
unsubscribe is called exactly at the first poll after the last handle's drop
enqueued the notification (trace becomes `[subscribe t, unsubscribe t]`, the
terminal phase), and the whole engine trace is never anything but one of
those three values. -/
theorem single_topic_lifecycle (t : String) (ops : List MOp)
    (hres : RestrictedRun t emptyWorld ops = true)
    (hbud : (ops.filter isSubOp).length < usizeMod) :
    LifecycleState t (execOps t emptyWorld ops) ∧
    ((execOps t emptyWorld ops).engineTrace = [] ∨
     (execOps t emptyWorld ops).engineTrace = [EngineCall.subscribe t] ∨
     (execOps t emptyWorld ops).engineTrace =
       [EngineCall.subscribe t, EngineCall.unsubscribe t]) := by
  have main : ∀ (l : List MOp) (w : World), LifecycleState t w →
      RestrictedRun t w l = true →
      w.handles.length + (l.filter isSubOp).length < usizeMod →
      LifecycleState t (execOps t w l) := by
    intro l
    induction l with
    | nil => intro w hw _ _; exact hw
    | cons op rest ih =>
        intro w hw hres2 hbud2
        simp only [RestrictedRun, Bool.and_eq_true] at hres2
        obtain ⟨hcond, hrest⟩ := hres2
        show LifecycleState t (execOps t (execOp t w op) rest)
        cases op with
        | sub =>
            have hallow : subAllowedB t w = true := by
              simp only [isSubOp, Bool.not_true, Bool.false_or] at hcond
              exact hcond
            have hcount : ((MOp.sub :: rest).filter isSubOp).length =
                (rest.filter isSubOp).length + 1 := by
              simp [List.filter, isSubOp]
            rw [hcount] at hbud2
            cases hw with
            | inl hpre =>
                refine ih (execOp t w MOp.sub) (Or.inr (Or.inl (lifecycle_sub_pre t w hpre)))
                  hrest ?_
                have hx : (subscribe w t).1.handles.length = 1 := by
                  rw [show w = emptyWorld from hpre, subscribe_empty_eq]
                  rfl
                show (subscribe w t).1.handles.length + (rest.filter isSubOp).length < usizeMod
                rw [hx]
                have hwh : w.handles.length = 0 := by
                  rw [show w = emptyWorld from hpre]
                  rfl
                omega
            | inr hw2 =>
                cases hw2 with
                | inl hlive =>
                    have hbudl : w.handles.length + 1 < usizeMod := by omega
                    refine ih (execOp t w MOp.sub)
                      (Or.inr (Or.inl (lifecycle_sub_live t w hlive hbudl))) hrest ?_
                    show (subscribe w t).1.handles.length +
                      (rest.filter isSubOp).length < usizeMod
                    rw [subscribe_handles_len_live t w hlive]
                    omega
                | inr hw3 =>
                    cases hw3 with
                    | inl hpend =>
                        exfalso
                        obtain ⟨chids, hp1, hp2, hp3, hp4, hp5, hp6, hp7, hp8⟩ := hpend
                        simp [subAllowedB, hp5] at hallow
                    | inr hdone =>
                        exfalso
                        obtain ⟨hd1, hd2, hd3, hd4, hd5, hd6, hd7, hd8⟩ := hdone
                        simp [subAllowedB, hd5, hd7, hd1, alookup] at hallow
        | dropH i =>
            have hcount : ((MOp.dropH i :: rest).filter isSubOp).length =
                (rest.filter isSubOp).length := by
              simp [List.filter, isSubOp]
            rw [hcount] at hbud2
            cases hw with
            | inl hpre =>
                have hdx : dropHandle w i = w :=
                  dropHandle_nohandles w i (by rw [show w = emptyWorld from hpre]; rfl)
                refine ih (execOp t w (MOp.dropH i)) ?_ hrest ?_
                · show LifecycleState t (dropHandle w i)
                  rw [hdx]
                  exact Or.inl hpre
                · show (dropHandle w i).handles.length +
                    (rest.filter isSubOp).length < usizeMod
                  rw [hdx]
                  omega
            | inr hw2 =>
                cases hw2 with
                | inl hlive =>
                    have hbM : w.handles.length < usizeMod := by omega
                    obtain ⟨hle, hphase⟩ := lifecycle_drop_live t w i hlive hbM
                    refine ih (execOp t w (MOp.dropH i)) ?_ hrest ?_
                    · show LifecycleState t (dropHandle w i)
                      cases hphase with
                      | inl hl2 => exact Or.inr (Or.inl hl2)
                      | inr hp2 => exact Or.inr (Or.inr (Or.inl hp2))
                    · show (dropHandle w i).handles.length +
                        (rest.filter isSubOp).length < usizeMod
                      omega
                | inr hw3 =>
                    cases hw3 with
                    | inl hpend =>
                        have hh4 : w.handles = [] := by
                          obtain ⟨chids, _, _, _, hp4, _, _, _, _⟩ := hpend
                          exact hp4
                        have hdx : dropHandle w i = w := dropHandle_nohandles w i hh4
                        refine ih (execOp t w (MOp.dropH i)) ?_ hrest ?_
                        · show LifecycleState t (dropHandle w i)
                          rw [hdx]
                          exact Or.inr (Or.inr (Or.inl hpend))
                        · show (dropHandle w i).handles.length +
                            (rest.filter isSubOp).length < usizeMod
                          rw [hdx]
                          omega
                    | inr hdone =>
                        have hh4 : w.handles = [] := hdone.2.2.2.1
                        have hdx : dropHandle w i = w := dropHandle_nohandles w i hh4
                        refine ih (execOp t w (MOp.dropH i)) ?_ hrest ?_
                        · show LifecycleState t (dropHandle w i)
                          rw [hdx]
                          exact Or.inr (Or.inr (Or.inr hdone))
                        · show (dropHandle w i).handles.length +
                            (rest.filter isSubOp).length < usizeMod
                          rw [hdx]
                          omega
        | poll =>
            have hcount : ((MOp.poll :: rest).filter isSubOp).length =
                (rest.filter isSubOp).length := by
              simp [List.filter, isSubOp]
            rw [hcount] at hbud2
            have hhand : (pollOnce w []).1.handles.length = w.handles.length := by
              rw [(pollOnce_keeps w []).1]
            cases hw with
            | inl hpre =>
                have hdx : (pollOnce w []).1 = w := pollOnce_nil_idle w
                  (by rw [show w = emptyWorld from hpre]; rfl)
                  (by rw [show w = emptyWorld from hpre]; rfl)
                refine ih (execOp t w MOp.poll) ?_ hrest ?_
                · show LifecycleState t (pollOnce w []).1
                  rw [hdx]
                  exact Or.inl hpre
                · show (pollOnce w []).1.handles.length +
                    (rest.filter isSubOp).length < usizeMod
                  rw [hhand]
                  omega
            | inr hw2 =>
                cases hw2 with
                | inl hlive =>
                    have hdx : (pollOnce w []).1 = w := by
                      obtain ⟨chids, hs, _, _, _, _, _, _, _, _, h9, h10, _, _⟩ := hlive
                      exact pollOnce_nil_idle w h9 h10
                    refine ih (execOp t w MOp.poll) ?_ hrest ?_
                    · show LifecycleState t (pollOnce w []).1
                      rw [hdx]
                      exact Or.inr (Or.inl hlive)
                    · show (pollOnce w []).1.handles.length +
                        (rest.filter isSubOp).length < usizeMod
                      rw [hhand]
                      omega
                | inr hw3 =>
                    cases hw3 with
                    | inl hpend =>
                        refine ih (execOp t w MOp.poll)
                          (Or.inr (Or.inr (Or.inr (lifecycle_poll_pending t w hpend))))
                          hrest ?_
                        show (pollOnce w []).1.handles.length +
                          (rest.filter isSubOp).length < usizeMod
                        rw [hhand]
                        omega
                    | inr hdone =>
                        have hdx : (pollOnce w []).1 = w :=
                          pollOnce_nil_idle w hdone.2.2.2.2.1 hdone.2.2.2.2.2.1
                        refine ih (execOp t w MOp.poll) ?_ hrest ?_
                        · show LifecycleState t (pollOnce w []).1
                          rw [hdx]
                          exact Or.inr (Or.inr (Or.inr hdone))
                        · show (pollOnce w []).1.handles.length +
                            (rest.filter isSubOp).length < usizeMod
                          rw [hhand]
                          omega
  have hstate := main ops emptyWorld (Or.inl rfl) hres (by simpa [emptyWorld] using hbud)
  refine ⟨hstate, ?_⟩
  cases hstate with
  | inl hpre =>
      left
      rw [show execOps t emptyWorld ops = emptyWorld from hpre]
      rfl
  | inr h2 =>
      cases h2 with
      | inl hlive =>
          right; left
          obtain ⟨_, _, _, _, _, _, _, _, _, _, _, _, h13, _⟩ := hlive
          exact h13
      | inr h3 =>
          cases h3 with
          | inl hpend =>
              right; left
              obtain ⟨_, _, _, _, _, _, _, h7, _⟩ := hpend
              exact h7
          | inr hdone =>
              right; right
              exact hdone.2.2.2.2.2.2.1

/-- Witness for C2's amended theorem: subscribe, drop the handle, poll. -/
theorem single_topic_lifecycle_witness :
    RestrictedRun "a" emptyWorld [MOp.sub, MOp.dropH 2, MOp.poll] = true ∧
    (([MOp.sub, MOp.dropH 2, MOp.poll].filter isSubOp).length < usizeMod) ∧
    (LifecycleState "a" (execOps "a" emptyWorld [MOp.sub, MOp.dropH 2, MOp.poll]) ∧
     ((execOps "a" emptyWorld [MOp.sub, MOp.dropH 2, MOp.poll]).engineTrace = [] ∨
      (execOps "a" emptyWorld [MOp.sub, MOp.dropH 2, MOp.poll]).engineTrace =
        [EngineCall.subscribe "a"] ∨
      (execOps "a" emptyWorld [MOp.sub, MOp.dropH 2, MOp.poll]).engineTrace =
        [EngineCall.subscribe "a", EngineCall.unsubscribe "a"])) :=
  ⟨by decide, by decide,
    single_topic_lifecycle "a" [MOp.sub, MOp.dropH 2, MOp.poll] (by decide) (by decide)⟩
